import Mathlib

/-!
Verification of the filtering and grouping engine of `sarif-tools`.

The Python sources are shallowly embedded: Python strings become `List Char`
(written `PyStr`), JSON values become the inductive `JVal`, Python dicts become
ordered association lists, mutation becomes explicit state passing, and
fallible code returns `Except`/`Option`.  Each definition mirrors one Python
function or class of the repository; deviations (for example, code paths that
raise `TypeError` in Python on inputs outside the claims' scope) are noted in
comments.
-/

set_option maxRecDepth 4000

/-- Python strings are modelled as lists of characters. -/
abbrev PyStr := List Char

namespace PyLib

/-- Python `str.strip()`: remove leading and trailing whitespace. -/
def pyStrip (s : PyStr) : PyStr :=
  ((s.dropWhile Char.isWhitespace).reverse.dropWhile Char.isWhitespace).reverse

/-- Python `str.zfill(n)` for the strings appearing in sort keys (no sign handling,
which only matters for strings starting with a sign character). -/
def zfill (n : Nat) (s : PyStr) : PyStr :=
  if s.length < n then List.replicate (n - s.length) '0' ++ s else s

/-- Python string `<=` (lexicographic by code point). -/
def strLe : PyStr → PyStr → Bool
  | [], _ => true
  | _ :: _, [] => false
  | a :: as, b :: bs => if a = b then strLe as bs else decide (a.val < b.val)

/-- Longest common prefix of two strings. -/
def lcp : PyStr → PyStr → PyStr
  | a :: as, b :: bs => if a = b then a :: lcp as bs else []
  | _, _ => []

/-- Position of the first differing character pair in `zip s t`
(the loop over `zip(common_desc_stem, desc)` in `_group_records_by_key`). -/
def firstMismatchPos : PyStr → PyStr → Option Nat
  | a :: as, b :: bs => if a = b then (firstMismatchPos as bs).map (· + 1) else some 0
  | _, _ => none

/-- Helper for `pyWords`: `acc` is the current word, reversed. -/
def pyWordsAux : PyStr → PyStr → List PyStr
  | [], acc => if acc = [] then [] else [acc.reverse]
  | c :: cs, acc =>
    if c.isWhitespace then
      if acc = [] then pyWordsAux cs [] else acc.reverse :: pyWordsAux cs []
    else pyWordsAux cs (c :: acc)

/-- Split into whitespace-separated words (as `str.split()` with no argument). -/
def pyWords (s : PyStr) : List PyStr := pyWordsAux s []

/-- Join words with single spaces. -/
def joinSp : List PyStr → PyStr
  | [] => []
  | [w] => w
  | w :: ws => w ++ ' ' :: joinSp ws

/-- Stable insertion used by the stable sort below: `a` is placed after every
already-placed element `b` with `le b a`. -/
def insertByLe (le : α → α → Bool) (a : α) : List α → List α
  | [] => [a]
  | b :: l => if le b a then b :: insertByLe le a l else a :: b :: l

/-- Stable sort (models Python `list.sort`/`sorted`, which are stable). -/
def stableSortBy (le : α → α → Bool) (l : List α) : List α :=
  l.foldl (fun acc x => insertByLe le x acc) []

/-- Python `needle in hay` on strings: contiguous substring containment. -/
def isSubstrOf (needle hay : PyStr) : Bool :=
  hay.tails.any (fun t => needle.isPrefixOf t)

/-- Greedy word-joining step of `textwrap.shorten`: extend `cur` with further
words while the joined text stays within `limit` characters. -/
def takeWordsFit (limit : Nat) : PyStr → List PyStr → PyStr
  | cur, [] => cur
  | cur, w :: ws =>
    let next := cur ++ ' ' :: w
    if next.length ≤ limit then takeWordsFit limit next ws else cur

/-- Model of Python `textwrap.shorten(text, width, placeholder)` (standard
library collaborator, modelled from its documented behaviour): collapse
whitespace; if the collapsed text fits in `width`, return it; otherwise join as
many leading words as fit together with the placeholder; if not even the first
word fits, return the stripped placeholder. -/
def pyShorten (text : PyStr) (width : Nat) (placeholder : PyStr) : PyStr :=
  let ws := pyWords text
  let collapsed := joinSp ws
  if collapsed.length ≤ width then collapsed
  else
    match ws with
    | [] => collapsed
    | w :: rest =>
      if w.length + placeholder.length ≤ width then
        takeWordsFit (width - placeholder.length) w rest ++ placeholder
      else pyStrip placeholder

end PyLib

open PyLib

/-- JSON-like values: the semi-structured data SARIF files are made of.
Objects are ordered key/value association lists (Python dicts preserve
insertion order). -/
inductive JVal where
  | null : JVal
  | bool : Bool → JVal
  | num : Int → JVal
  | str : PyStr → JVal
  | arr : List JVal → JVal
  | obj : List (String × JVal) → JVal

mutual

/-- Python `==` on JSON values. -/
def jBeq : JVal → JVal → Bool
  | .null, .null => true
  | .bool a, .bool b => a == b
  | .num a, .num b => a == b
  | .str a, .str b => a == b
  | .arr as, .arr bs => jBeqList as bs
  | .obj as, .obj bs => jBeqObj as bs
  | _, _ => false

/-- Python `==` on JSON arrays. -/
def jBeqList : List JVal → List JVal → Bool
  | [], [] => true
  | a :: as, b :: bs => jBeq a b && jBeqList as bs
  | _, _ => false

/-- Python `==` on JSON objects (order-sensitive, which is all the claims need). -/
def jBeqObj : List (String × JVal) → List (String × JVal) → Bool
  | [], [] => true
  | (k, a) :: as, (l, b) :: bs => k == l && jBeq a b && jBeqObj as bs
  | _, _ => false

end

/-- Python `==` on optional JSON values (`None == None` is `True`,
`None == v` is `False` for a real value `v`). -/
def optBeq : Option JVal → Option JVal → Bool
  | none, none => true
  | some a, some b => jBeq a b
  | _, _ => false

namespace JVal

/-- Python truthiness of a JSON value (`if x:`). -/
def truthy : JVal → Bool
  | .null => false
  | .bool b => b
  | .num n => n != 0
  | .str s => !s.isEmpty
  | .arr xs => !xs.isEmpty
  | .obj kvs => !kvs.isEmpty

/-- Python `d.get(k)` / `d.get(k, None)`.  On non-dicts `.get` raises
`AttributeError` in Python; that path is outside every claim's scope and is
modelled as `none`. -/
def get : JVal → String → Option JVal
  | .obj kvs, k => kvs.lookup k
  | _, _ => none

/-- Python `d.get(k, default)`. -/
def getD (j : JVal) (k : String) (d : JVal) : JVal := (j.get k).getD d

/-- Truthiness of an optional value (`if d.get(k):`). -/
def optTruthy : Option JVal → Bool
  | some v => v.truthy
  | none => false

/-- Elements of an array value, `[]` otherwise. -/
def asArrD : JVal → List JVal
  | .arr xs => xs
  | _ => []

/-- The characters of a string value; non-strings are rendered like Python
`str()` renders numbers, which is all the claims need. -/
def asStrD : JVal → PyStr
  | .str s => s
  | .num n => (toString n).toList
  | .bool b => (if b then "True" else "False").toList
  | _ => []

/-- `k in d` for object values. -/
def hasKey (j : JVal) (k : String) : Bool := (j.get k).isSome

/-- Remove a key from an object (Python `d.pop(k, None)` restricted to its
effect on the dict). -/
def objRemove : JVal → String → JVal
  | .obj kvs, k => .obj (kvs.filter (fun kv => kv.1 ≠ k))
  | j, _ => j

/-- Set a key on an object: replace in place if present (Python dicts keep the
original position), else append at the end. -/
def objSet : JVal → String → JVal → JVal
  | .obj kvs, k, v =>
    .obj (if (kvs.lookup k).isSome
          then kvs.map (fun kv => if kv.1 = k then (k, v) else kv)
          else kvs ++ [(k, v)])
  | j, _, _ => j

end JVal

/-! ## `sarif/sarif_file_utils.py` -/

def SARIF_SEVERITIES_WITHOUT_NONE : List PyStr :=
  ["error".toList, "warning".toList, "note".toList]

def SARIF_SEVERITIES_WITH_NONE : List PyStr :=
  SARIF_SEVERITIES_WITHOUT_NONE ++ ["none".toList]

/-- The ` ...` continuation placeholder of `combine_code_and_description`. -/
def continuation_placeholder : PyStr := " ...".toList

/-- The description clean-up of `combine_code_and_description` (truncate at
the first newline, strip a duplicated code prefix, strip whitespace). -/
def clean_description (code desc0 : PyStr) : PyStr :=
  if !desc0.isEmpty then
    let d := if desc0.contains '\n' then desc0.takeWhile (fun c => c ≠ '\n') else desc0
    let d := if code.isPrefixOf d then d.drop code.length else d
    pyStrip d
  else desc0

/-- The length-fitting step of `combine_code_and_description`
(`textwrap.shorten`, with the hard mid-word truncation fallback). -/
def fit_description (description : PyStr)
    (length_budget length_budget_pre_continuation : Int) : PyStr :=
  if (description.length : Int) > length_budget then
    let shorter_description :=
      pyShorten description length_budget_pre_continuation.toNat
        continuation_placeholder
    if (shorter_description.length : Int) < length_budget_pre_continuation - 40 then
      description.take length_budget_pre_continuation.toNat ++ continuation_placeholder
    else shorter_description
  else description

/-- Embeds `combine_code_and_description`.  The budget arithmetic uses `Int`
because Python's budget may go negative for long codes. -/
def combine_code_and_description (code0 desc0 : PyStr) : PyStr :=
  let code := if !code0.isEmpty then pyStrip code0 else code0
  let length_budget : Int :=
    if !code0.isEmpty then 120 - ((code.length : Int) + 1) else 120
  let length_budget_pre_continuation : Int :=
    length_budget - continuation_placeholder.length
  if length_budget_pre_continuation < 10 then code
  else
    let description := clean_description code desc0
    if !description.isEmpty then
      let description :=
        fit_description description length_budget length_budget_pre_continuation
      if !code.isEmpty then pyStrip code ++ ' ' :: description else description
    else if !code.isEmpty then code else "<NONE>".toList

/-- The simplified records produced by `SarifRun.result_to_record` (Python uses
plain dicts with these keys).  `Line` holds the string rendering of the line
number. -/
structure NRecord where
  Tool : PyStr := []
  Location : PyStr := []
  Line : PyStr := []
  Severity : PyStr := []
  Code : PyStr := []
  Description : PyStr := []
  Author : Option PyStr := none
deriving DecidableEq

/-- Embeds `combine_record_code_and_description`. -/
def combine_record_code_and_description (record : NRecord) : PyStr :=
  combine_code_and_description record.Code record.Description

/-- Embeds `record_sort_key` (`record["Line"]` is already a string here, so
Python's `str(...)` is the identity). -/
def record_sort_key (record : NRecord) : PyStr :=
  combine_record_code_and_description record ++ record.Location ++ zfill 6 record.Line

/-- Embeds `read_result_location`: returns the `(file_path, line_number)` pair,
each `none` for Python `None`. -/
def read_result_location (result : JVal) : Option JVal × Option JVal :=
  let locations := result.getD "locations" (.arr [])
  match locations with
  | .arr (location :: _) =>
    let physical_location := location.getD "physicalLocation" (.obj [])
    let line_number := (physical_location.getD "region" (.obj [])).get "startLine"
    let file_path :=
      ((location.getD "physicalLocation" (.obj [])).getD "address" (.obj [])).get
        "fullyQualifiedName"
    let file_path :=
      if !JVal.optTruthy file_path then
        ((location.getD "physicalLocation" (.obj [])).getD "artifactLocation"
          (.obj [])).get "uri"
      else file_path
    let file_path :=
      if !JVal.optTruthy file_path then
        match location.get "logicalLocations" with
        | some (.arr (l0 :: _)) => l0.get "fullyQualifiedName"
        | _ => file_path
      else file_path
    (file_path, line_number)
  | _ => (none, none)

/-- Enumerate the rules list looking for `rule.get("id") == ruleId`
(the `for i, rule in enumerate(rules)` loop of `read_result_rule`). -/
def findRuleById (ruleId : Option JVal) : List JVal → Nat → Option (JVal × Nat)
  | [], _ => none
  | r :: rs, i =>
    if optBeq (r.get "id") ruleId then some (r, i) else findRuleById ruleId rs (i + 1)

/-- Embeds `read_result_rule`: the rule object for the result plus its index,
`(none, -1)` when unresolvable.  A non-numeric `ruleIndex` raises `TypeError`
in Python and is outside the claims' scope (modelled as not numeric, so the
index branch is skipped). -/
def read_result_rule (result run : JVal) : Option JVal × Int :=
  let ruleIndex0 := result.get "ruleIndex"
  let ruleId0 := result.get "ruleId"
  let rule := result.get "rule"
  let ruleIndex :=
    if JVal.optTruthy rule && ruleIndex0.isNone then
      (rule.getD .null).get "index"
    else ruleIndex0
  let ruleId :=
    if JVal.optTruthy rule && ruleId0.isNone then
      (rule.getD .null).get "id"
    else ruleId0
  let rules :=
    (((run.getD "tool" (.obj [])).getD "driver" (.obj [])).getD "rules"
      (.arr [])).asArrD
  match ruleIndex with
  | some (.num i) =>
    if 0 ≤ i && i < (rules.length : Int) then (rules[i.toNat]?, i)
    else
      match (if JVal.optTruthy ruleId then findRuleById ruleId rules 0 else none) with
      | some (r, j) => (some r, (j : Int))
      | none => (none, -1)
  | _ =>
    match (if JVal.optTruthy ruleId then findRuleById ruleId rules 0 else none) with
    | some (r, j) => (some r, (j : Int))
    | none => (none, -1)

/-- Embeds `read_result_invocation`.  A non-numeric present `invocationIndex`
raises `TypeError` in Python (outside the claims' scope). -/
def read_result_invocation (result run : JVal) : Option JVal :=
  let invocationIndex := (result.getD "provenance" (.obj [])).get "invocationIndex"
  match invocationIndex with
  | some (.num i) =>
    match run.get "invocations" with
    | some (.arr xs) =>
      if !xs.isEmpty && (0 ≤ i && i < (xs.length : Int)) then xs[i.toNat]? else none
    | _ => none
  | _ => none

/-- The invocation-override block of `read_result_severity`: the override level
for the resolved rule when the invocation is truthy, a matching entry of
`ruleConfigurationOverrides` exists and its `configuration.level` is truthy. -/
def rule_override_level (result run rule : JVal) (ruleIndex : Int) : Option JVal :=
  match read_result_invocation result run with
  | some invocation =>
    if invocation.truthy then
      let overrides := (invocation.getD "ruleConfigurationOverrides" (.arr [])).asArrD
      match overrides.find? (fun o =>
          optBeq ((o.getD "descriptor" (.obj [])).get "id") (rule.get "id")
          || optBeq ((o.getD "descriptor" (.obj [])).get "index")
              (some (.num ruleIndex))) with
      | some override =>
        let overrideLevel := (override.getD "configuration" (.obj [])).get "level"
        if JVal.optTruthy overrideLevel then overrideLevel else none
      | none => none
    else none
  | none => none

/-- Embeds `read_result_severity`: the layered severity fallback.  The return
value is the JSON value Python would return (normally a string). -/
def read_result_severity (result run : JVal) : JVal :=
  let severity := result.get "level"
  if JVal.optTruthy severity then severity.getD .null
  else
    let kind := result.getD "kind" (.str "fail".toList)
    if kind.truthy && !jBeq kind (.str "fail".toList) then .str "none".toList
    else
      match read_result_rule result run with
      | (some rule, ruleIndex) =>
        if rule.truthy then
          match rule_override_level result run rule ruleIndex with
          | some lvl => lvl
          | none =>
            match rule.get "defaultConfiguration" with
            | some dc =>
              if dc.truthy then
                match dc.get "level" with
                | some lvl => if lvl.truthy then lvl else .str "warning".toList
                | none => .str "warning".toList
              else .str "warning".toList
            | none => .str "warning".toList
        else .str "warning".toList
      | (none, _) => .str "warning".toList

/-! ## `sarif/filter/filter_stats.py` -/

/-- Embeds the `FilterStats` class.  `filter_datetime` is wall-clock time and
is not modelled; none of the serialised fields depend on it. -/
structure FilterStats where
  filter_description : PyStr
  rehydrated : Bool := false
  filtered_in_result_count : Int := 0
  filtered_out_result_count : Int := 0
  missing_property_count : Int := 0
  unconvincing_line_number_count : Int := 0
deriving DecidableEq

/-- The `FilterStats.__init__` constructor. -/
def mkFilterStats (filter_description : PyStr) : FilterStats :=
  { filter_description := filter_description }

/-- Embeds `FilterStats.reset_counters` (minus the timestamp). -/
def FilterStats.reset_counters (s : FilterStats) : FilterStats :=
  { s with filtered_in_result_count := 0, filtered_out_result_count := 0,
           missing_property_count := 0, unconvincing_line_number_count := 0 }

/-- Embeds `FilterStats.to_json_camel_case`. -/
def FilterStats.to_json_camel_case (s : FilterStats) : JVal :=
  .obj [("filter", .str s.filter_description),
        ("in", .num s.filtered_in_result_count),
        ("out", .num s.filtered_out_result_count),
        ("default", .obj [("noProperty", .num s.missing_property_count),
                          ("noLineNumber", .num s.unconvincing_line_number_count)])]

/-- Numeric value of a JSON value; the loaded counters are numeric in every
use the claims cover (Python would store the raw value). -/
def JVal.asIntD : JVal → Int
  | .num n => n
  | _ => 0

/-- Embeds `load_filter_stats_from_json`.  Python raises `KeyError` when the
`filter` key is missing from a truthy payload; that path (outside the claims'
scope, every serialised form has the key) is modelled as `none`. -/
def load_filter_stats_from_json (json_data : JVal) : Option FilterStats :=
  if json_data.truthy then
    match json_data.get "filter" with
    | some f =>
      let default_stats := json_data.getD "default" (.obj [])
      some { filter_description := f.asStrD,
             rehydrated := true,
             filtered_in_result_count := (json_data.getD "in" (.num 0)).asIntD,
             filtered_out_result_count := (json_data.getD "out" (.num 0)).asIntD,
             unconvincing_line_number_count :=
               (default_stats.getD "noLineNumber" (.num 0)).asIntD,
             missing_property_count := (default_stats.getD "noProperty" (.num 0)).asIntD }
    | none => none
  else none

/-! ## `sarif/filter/general_filter.py` -/

/-- The `FILTER_SHORTCUTS` table. -/
def FILTER_SHORTCUTS : List (String × String) :=
  [("author", "properties.blame.author"),
   ("author-mail", "properties.blame.author-mail"),
   ("committer", "properties.blame.committer"),
   ("committer-mail", "properties.blame.committer-mail"),
   ("location", "locations[*].physicalLocation.artifactLocation.uri"),
   ("rule", "ruleId"),
   ("suppression", "suppressions[*].kind")]

/-- The `DEFAULT_CONFIGURATION` dict.  Configuration values are booleans in
every use the claims cover. -/
def DEFAULT_CONFIGURATION : List (String × Bool) :=
  [("default-include", true), ("check-line-number", true)]

/-- Python `cfg.get(key, default)` on a configuration dict. -/
def cfgGet (cfg : List (String × Bool)) (k : String) (d : Bool) : Bool :=
  (cfg.lookup k).getD d

/-- Python `dict.update`: keys of `upd` override `base`, new keys append. -/
def cfgUpdate (base upd : List (String × Bool)) : List (String × Bool) :=
  base.map (fun kv => (kv.1, (upd.lookup kv.1).getD kv.2))
    ++ upd.filter (fun kv => (base.lookup kv.1).isNone)

/-- One step of a compiled JSON path: plain field access or `[*]`. -/
inductive PathStep where
  | field : String → PathStep
  | wildcard : PathStep
deriving DecidableEq

/-- `jsonpath_ng.ext.parse` restricted to the grammar the filters use
(dotted fields with `[*]` array wildcards, the full shortcut table included). -/
def compToSteps (c : String) : List PathStep :=
  if c.endsWith "[*]" then [.field (c.dropRight 3), .wildcard] else [.field c]

/-- Parse a dotted JSON path into steps. -/
def parseJsonPath (s : String) : List PathStep :=
  ((s.splitOn ".").map compToSteps).flatten

/-- `jsonpath_expr.find`: all values the compiled path reaches, in document
order. -/
def findPath : List PathStep → JVal → List JVal
  | [], v => [v]
  | .field k :: rest, v =>
    match v with
    | .obj kvs =>
      match kvs.lookup k with
      | some w => findPath rest w
      | none => []
    | _ => []
  | .wildcard :: rest, v =>
    match v with
    | .arr xs => xs.foldr (fun x acc => findPath rest x ++ acc) []
    | _ => []
termination_by steps _ => steps.length

/-- Atoms of the small regex engine standing in for Python `re`. -/
inductive RAtom where
  | chr : Char → RAtom
  | dot : RAtom
  | cls : Bool → List Char → RAtom
deriving DecidableEq

/-- A regex atom with an optional `*` repetition. -/
structure RPiece where
  atom : RAtom
  star : Bool
deriving DecidableEq

/-- Parse the regex fragment the filters rely on: literals, `\c` escapes, `.`,
`[...]`/`[^...]` classes and postfix `*` (what the glob expansion emits).
Python `re` accepts a larger language; no claim depends on the remainder. -/
def parseRegexAux : Nat → List Char → List RPiece
  | 0, _ => []
  | _, [] => []
  | fuel + 1, s =>
    let (atom, rest) : RAtom × List Char :=
      match s with
      | '\\' :: c :: r => (.chr c, r)
      | '\\' :: [] => (.chr '\\', [])
      | '.' :: r => (.dot, r)
      | '[' :: '^' :: r =>
        (.cls true (r.takeWhile (fun c => c ≠ ']')),
         (r.dropWhile (fun c => c ≠ ']')).drop 1)
      | '[' :: r =>
        (.cls false (r.takeWhile (fun c => c ≠ ']')),
         (r.dropWhile (fun c => c ≠ ']')).drop 1)
      | c :: r => (.chr c, r)
      | [] => (.dot, [])
    match rest with
    | '*' :: r2 => ⟨atom, true⟩ :: parseRegexAux fuel r2
    | _ => ⟨atom, false⟩ :: parseRegexAux fuel rest

/-- Parse a regex (fuel is an upper bound on the number of atoms). -/
def parseRegex (s : List Char) : List RPiece := parseRegexAux (s.length + 1) s

/-- Case-insensitive atom match (the filters compile with `re.IGNORECASE`). -/
def atomMatchCI (a : RAtom) (c : Char) : Bool :=
  match a with
  | .chr x => x.toLower = c.toLower
  | .dot => true
  | .cls neg cs => (cs.any (fun x => x.toLower = c.toLower)) != neg

/-- Backtracking matcher: does a prefix of `s` match the pieces? -/
def reMatch : List RPiece → List Char → Bool
  | [], _ => true
  | p :: ps, s =>
    if p.star then
      reMatch ps s ||
        (match s with
         | [] => false
         | c :: cs => atomMatchCI p.atom c && reMatch (p :: ps) cs)
    else
      match s with
      | [] => false
      | c :: cs => atomMatchCI p.atom c && reMatch ps cs
termination_by ps s => (s.length, ps.length)

/-- `re.search(regex, value, re.IGNORECASE)`: a match starting anywhere. -/
def reSearchCI (pattern text : PyStr) : Bool :=
  let ps := parseRegex pattern
  text.tails.any (fun t => reMatch ps t)

/-- Embeds `_get_filter_function`.  Python applies `in`/`re.search` to the raw
value and raises `TypeError` on non-strings; non-string values do not occur in
the claims' scope and are modelled as no match. -/
def _get_filter_function (filter_spec : PyStr) : JVal → Bool :=
  if !filter_spec.isEmpty then
    if filter_spec.length > 2 && filter_spec.head? == some '/'
        && filter_spec.getLast? == some '/' then
      let regex := (filter_spec.drop 1).dropLast
      fun value =>
        match value with
        | .str s => reSearchCI regex s
        | _ => false
    else
      let substring := filter_spec
      fun value =>
        match value with
        | .str s => isSubstrOf substring s
        | _ => false
  else fun _ => true

/-- The glob-to-regex substitution of `_convert_glob_to_regex`
(`**` to `.*`, `*` to `[^/]*`, `?` to `.`; leftmost-longest like the
alternation `\*\*|\*|\?`). -/
def globSub : List Char → List Char
  | '*' :: '*' :: rest => '.' :: '*' :: globSub rest
  | '*' :: rest => '[' :: '^' :: '/' :: ']' :: '*' :: globSub rest
  | '?' :: rest => '.' :: globSub rest
  | c :: rest => c :: globSub rest
  | [] => []

/-- Embeds `_convert_glob_to_regex`. -/
def _convert_glob_to_regex (property_name : String) (property_value_spec : PyStr) :
    PyStr :=
  if !property_value_spec.isEmpty
      && !(property_value_spec.head? == some '/'
            && property_value_spec.getLast? == some '/') then
    let last_component := ((property_name.splitOn ".").getLast?).getD property_name
    if last_component = "uri" then
      '/' :: (globSub property_value_spec ++ ['/'])
    else property_value_spec
  else property_value_spec

/-- A filter term's value specification: either a plain string, or a dict that
overrides per-term configuration and carries the value under the `value` key
(already extracted here, defaulted to the empty string as in the source). -/
inductive PropValueSpec where
  | strSpec : PyStr → PropValueSpec
  | dictSpec : List (String × Bool) → PyStr → PropValueSpec
deriving DecidableEq

/-- Embeds the `PropertyFilter` class (a compiled filter term). -/
structure PropertyFilter where
  prop_path : String
  steps : List PathStep
  filter_configuration : List (String × Bool)
  filter_function : JVal → Bool

/-- Embeds `PropertyFilter.__init__`. -/
def mkPropertyFilter (prop_path : String) (prop_value_spec : PropValueSpec)
    (global_configuration : List (String × Bool)) : PropertyFilter :=
  let resolved_prop_path := (FILTER_SHORTCUTS.lookup prop_path).getD prop_path
  let steps := parseJsonPath resolved_prop_path
  let (filter_configuration, value0) :=
    match prop_value_spec with
    | .strSpec s => (global_configuration, s)
    | .dictSpec cfg v => (cfgUpdate global_configuration cfg, v)
  let value_spec := _convert_glob_to_regex resolved_prop_path value0
  { prop_path := prop_path, steps := steps,
    filter_configuration := filter_configuration,
    filter_function := _get_filter_function value_spec }

/-- Embeds the `MultiPropertyFilter` class: one rule, an AND of terms. -/
structure MultiPropertyFilter where
  filter_spec : List (String × PropValueSpec)
  and_terms : List PropertyFilter

/-- Embeds `MultiPropertyFilter.__init__`. -/
def mkMultiPropertyFilter (filter_spec : List (String × PropValueSpec))
    (global_filter_configuration : List (String × Bool)) : MultiPropertyFilter :=
  { filter_spec := filter_spec,
    and_terms := filter_spec.map
      (fun kv => mkPropertyFilter kv.1 kv.2 global_filter_configuration) }

/-- Embeds `_compile_filters` (falsy, i.e. empty, rule specs are skipped). -/
def _compile_filters (filters : List (List (String × PropValueSpec)))
    (global_filter_configuration : List (String × Bool)) :
    List MultiPropertyFilter :=
  (filters.filter (fun fs => !fs.isEmpty)).map
    (fun fs => mkMultiPropertyFilter fs global_filter_configuration)

/-- Embeds the `GeneralFilter` class state after `init_filter`. -/
structure GeneralFilter where
  filter_stats : FilterStats
  include_filters : List MultiPropertyFilter
  apply_inclusion_filter : Bool
  exclude_filters : List MultiPropertyFilter
  apply_exclusion_filter : Bool
  configuration : List (String × Bool)

/-- Embeds `GeneralFilter.init_filter` (on a fresh `GeneralFilter()`, whose
configuration starts as a copy of `DEFAULT_CONFIGURATION`). -/
def init_filter (filter_description : PyStr) (configuration : List (String × Bool))
    (include_filters exclude_filters : List (List (String × PropValueSpec))) :
    GeneralFilter :=
  let cfg := cfgUpdate DEFAULT_CONFIGURATION configuration
  { filter_stats := mkFilterStats filter_description,
    configuration := cfg,
    include_filters := _compile_filters include_filters cfg,
    apply_inclusion_filter := include_filters.length > 0,
    exclude_filters := _compile_filters exclude_filters cfg,
    apply_exclusion_filter := exclude_filters.length > 0 }

/-- The outcome of `_filter_result`: the `stats` dict it builds.  `state` is
`included`, `noProperty` or `noLineNumber`; `warnings` is empty exactly when
the Python dict carries no `warnings` key. -/
structure FRStats where
  state : String
  matchedFilter : List (List (String × PropValueSpec))
  warnings : List PyStr
deriving DecidableEq

/-- The warning recorded when a term is skipped for lack of line number. -/
def lineNoWarning (prop_path : String) : PyStr :=
  ("Field '" ++ prop_path ++ "' not checked due to missing line number information").toList

/-- The warning recorded when a term's property is missing and
`default-include` applies. -/
def noPropWarning (prop_path : String) : PyStr :=
  ("Field '" ++ prop_path
    ++ "' is missing but the result included as default-include is true").toList

/-- The inner loop of `_filter_result` over one rule's `and_terms`: returns
the accumulated warnings, the `default_include_noprop` flag and whether every
term matched (`matched`).  `unconv` is `unconvincing_line_number`. -/
def evalTerms (result : JVal) (unconv : Bool) :
    List PropertyFilter → List PyStr → Bool → List PyStr × Bool × Bool
  | [], warnings, noprop => (warnings, noprop, true)
  | property_filter :: rest, warnings, noprop =>
    if cfgGet property_filter.filter_configuration "check-line-number" true
        && unconv then
      evalTerms result unconv rest
        (warnings ++ [lineNoWarning property_filter.prop_path]) noprop
    else
      match findPath property_filter.steps result with
      | value :: _ =>
        if property_filter.filter_function value then
          evalTerms result unconv rest warnings noprop
        else (warnings, noprop, false)
      | [] =>
        if cfgGet property_filter.filter_configuration "default-include" true then
          evalTerms result unconv rest
            (warnings ++ [noPropWarning property_filter.prop_path]) true
        else (warnings, noprop, false)

/-- The outer loop of `_filter_result` over the rules (OR semantics, stop at
the first matching rule); warnings and the no-property flag accumulate across
failed rules as in the source. -/
def evalFilters (result : JVal) (unconv : Bool) :
    List MultiPropertyFilter → List PyStr → Bool →
    List PyStr × Bool × List (List (String × PropValueSpec))
  | [], warnings, noprop => (warnings, noprop, [])
  | mpf :: rest, warnings, noprop =>
    match evalTerms result unconv mpf.and_terms warnings noprop with
    | (warnings', noprop', matched) =>
      if matched then (warnings', noprop', [mpf.filter_spec])
      else evalFilters result unconv rest warnings' noprop'

/-- `unconvincing_line_number`: the extracted line number equals the string
`"1"` or is falsy/missing. -/
def unconvincingLineNumber (result : JVal) : Bool :=
  let line_number := (read_result_location result).2
  optBeq line_number (some (.str "1".toList)) || !JVal.optTruthy line_number

/-- Embeds `GeneralFilter._filter_result`. -/
def _filter_result (result : JVal) (filters : List MultiPropertyFilter) : FRStats :=
  let unconv := unconvincingLineNumber result
  let (warnings, noprop, matched_filters) :=
    if !filters.isEmpty then evalFilters result unconv filters [] false
    else ([], false, [])
  { state := if !warnings.isEmpty
             then (if noprop then "noProperty" else "noLineNumber")
             else "included",
    matchedFilter := matched_filters,
    warnings := warnings }

/-- Encode the `stats` dict written into `result["properties"]["filtered"]`
(keys in the order Python builds them; `warnings` present only when
non-empty). -/
def encodeFRStats (fr : FRStats) (filter_description : PyStr) : JVal :=
  .obj ([("state", .str fr.state.toList),
         ("matchedFilter",
          .arr (fr.matchedFilter.map (fun spec =>
            .obj (spec.map (fun kv =>
              (kv.1,
               match kv.2 with
               | .strSpec s => JVal.str s
               | .dictSpec cfg v =>
                 JVal.obj ((cfg.map (fun c => (c.1, JVal.bool c.2)))
                   ++ [("value", JVal.str v)])))))))]
        ++ (if !fr.warnings.isEmpty
            then [("warnings", JVal.arr (fr.warnings.map JVal.str))] else [])
        ++ [("filter", .str filter_description)])

/-- `result.setdefault("properties", {}).pop("filtered", None)`: ensure the
`properties` bag exists, then drop any previous `filtered` entry from it. -/
def popFilteredLog (result : JVal) : JVal :=
  let result := if result.hasKey "properties" then result
                else result.objSet "properties" (.obj [])
  result.objSet "properties" ((result.getD "properties" (.obj [])).objRemove "filtered")

/-- Write the new `filtered` entry into the properties bag. -/
def setFilteredLog (result : JVal) (log : JVal) : JVal :=
  result.objSet "properties" ((result.getD "properties" (.obj [])).objSet "filtered" log)

/-- Embeds `GeneralFilter._filter_append`: returns the updated stats, the
(possibly annotated) result, and the extended output list. -/
def _filter_append (gf : GeneralFilter) (st : FilterStats)
    (filtered_results : List JVal) (result : JVal) :
    FilterStats × JVal × List JVal :=
  let result := popFilteredLog result
  let included_stats :=
    if gf.apply_inclusion_filter then _filter_result result gf.include_filters
    else { state := "included", matchedFilter := [], warnings := [] }
  if gf.apply_inclusion_filter && included_stats.matchedFilter.isEmpty then
    ({ st with filtered_out_result_count := st.filtered_out_result_count + 1 },
     result, filtered_results)
  else if gf.apply_exclusion_filter
      && !(_filter_result result gf.exclude_filters).matchedFilter.isEmpty then
    ({ st with filtered_out_result_count := st.filtered_out_result_count + 1 },
     result, filtered_results)
  else
    let st' :=
      if included_stats.state = "included" then
        { st with filtered_in_result_count := st.filtered_in_result_count + 1 }
      else if included_stats.state = "noLineNumber" then
        { st with unconvincing_line_number_count :=
            st.unconvincing_line_number_count + 1 }
      else
        { st with missing_property_count := st.missing_property_count + 1 }
    let result' :=
      setFilteredLog result (encodeFRStats included_stats st.filter_description)
    (st', result', filtered_results ++ [result'])

/-- Embeds `GeneralFilter.filter_results`.  Returns the final filter stats,
the mutated input results (in order) and the returned (passing) list, whose
elements are the mutated results. -/
def filter_results (gf : GeneralFilter) (results : List JVal) :
    FilterStats × List JVal × List JVal :=
  if gf.apply_inclusion_filter || gf.apply_exclusion_filter then
    let st0 := gf.filter_stats.reset_counters
    results.foldl
      (fun acc result =>
        match acc with
        | (st, muts, ret) =>
          match _filter_append gf st ret result with
          | (st', result', ret') => (st', muts ++ [result'], ret'))
      (st0, [], [])
  else (gf.filter_stats, results, results)

/-! ## `sarif/sarif_file.py` -/

/-- Python exceptions raised per record. -/
inductive PyErr where
  | keyError : String → PyErr
  | ioError : PyStr → PyErr
deriving DecidableEq

/-- `d[k]`: raises `KeyError` when missing (also stands in for the `TypeError`
of subscripting a non-dict, a path outside the claims' scope). -/
def getItem (j : JVal) (k : String) : Except PyErr JVal :=
  match j.get k with
  | some v => .ok v
  | none => .error (.keyError k)

/-- The state of a `SarifRun` that `result_to_record` reads. -/
structure SarifRunM where
  run_data : JVal
  path_prefixes_upper : Option (List PyStr) := none

/-- Embeds `SarifRun.get_tool_name` (`run_data["tool"]["driver"]["name"]`). -/
def get_tool_name (run : SarifRunM) : Except PyErr JVal := do
  let t ← getItem run.run_data "tool"
  let d ← getItem t "driver"
  getItem d "name"

/-- `_SLASHES`. -/
def _SLASHES : List Char := ['\\', '/']

/-- Python `str.upper()` (ASCII case suffices for the claims). -/
def pyUpper (s : PyStr) : PyStr := s.map Char.toUpper

/-- The path-prefix stripping loop of `result_to_record` (first matching
prefix wins; a following slash is stripped too). -/
def stripPathPrefixes (file_path : PyStr) : List PyStr → PyStr
  | [] => file_path
  | p :: ps =>
    if p.isPrefixOf (pyUpper file_path) then
      if file_path.length > p.length
          && (match file_path.drop p.length with
              | c :: _ => _SLASHES.contains c
              | [] => false) then
        file_path.drop (p.length + 1)
      else file_path.drop p.length
    else stripPathPrefixes file_path ps

/-- Embeds `_get_author_mail_from_blame_info`. -/
def _get_author_mail_from_blame_info (blame_info : Option JVal) : Option JVal :=
  match blame_info with
  | some b =>
    if b.truthy then
      let a := b.get "author-mail"
      if JVal.optTruthy a then a else b.get "committer-mail"
    else none
  | none => none

/-- Embeds `SarifRun.result_to_record`.  String-typed fields are extracted
with `asStrD` (Python stores the raw values; they are strings in every use the
claims cover). -/
def result_to_record (run : SarifRunM) (result : JVal)
    (include_blame_info : Bool := false) : Except PyErr NRecord := do
  let error_id ← getItem result "ruleId"
  let tool_name ← get_tool_name run
  let (file_path0, line_number0) := read_result_location result
  -- Result having non-empty location is only a "SHOULD" in the SARIF spec.
  let file_path : PyStr :=
    if !JVal.optTruthy file_path0 then "-".toList
    else (file_path0.getD .null).asStrD
  let line_number : PyStr :=
    if !JVal.optTruthy line_number0 then "1".toList
    else (line_number0.getD .null).asStrD
  let file_path :=
    match run.path_prefixes_upper with
    | some prefixes => stripPathPrefixes file_path prefixes
    | none => file_path
  let severity := read_result_severity result run.run_data
  let eid := error_id.asStrD
  let message : PyStr ←
    if result.hasKey "message" then
      let message_data := result.getD "message" .null
      if message_data.hasKey "text" then pure (message_data.getD "text" .null).asStrD
      else if message_data.hasKey "id" then pure (message_data.getD "id" .null).asStrD
      else
        .error (.ioError
          ("Message for result ".toList ++ eid ++ " from tool ".toList
            ++ tool_name.asStrD
            ++ " do not comply with RFC3629. At least one of the text or id properties SHALL be present".toList))
    else pure eid
  pure { Tool := tool_name.asStrD,
         Location := file_path,
         Line := line_number,
         Severity := severity.asStrD,
         Code := eid,
         Description :=
           if eid.isPrefixOf message && message.length > eid.length + 1 then
             pyStrip ((message.drop (eid.length + 1)).take 1)
           else message,
         Author :=
           if include_blame_info then
             (_get_author_mail_from_blame_info
               ((result.getD "properties" (.obj [])).get "blame")).map JVal.asStrD
           else none }

/-! ## `sarif/issues_report.py` -/

/-- The running per-code entry of `_group_records_by_key`
(`{"key": ..., "common_desc": ..., "count": ...}`). -/
structure KeyCount where
  key : PyStr
  common_desc : PyStr
  count : Nat
deriving DecidableEq

/-- Embeds the `IssuesReport` class state. -/
structure IssuesReport where
  sev_to_records : List (PyStr × List NRecord)
  sev_to_sorted_keys : Option (List (PyStr × List (PyStr × List NRecord)))
  records_have_been_sorted : Bool

/-- `IssuesReport.__init__`. -/
def IssuesReport.init : IssuesReport :=
  { sev_to_records := SARIF_SEVERITIES_WITH_NONE.map (fun sev => (sev, [])),
    sev_to_sorted_keys := none,
    records_have_been_sorted := false }

/-- `dict.setdefault(k, []).append(r)` on an ordered dict. -/
def setdefaultAppend (m : List (PyStr × List NRecord)) (k : PyStr) (r : NRecord) :
    List (PyStr × List NRecord) :=
  if (m.lookup k).isSome then
    m.map (fun kv => if kv.1 = k then (kv.1, kv.2 ++ [r]) else kv)
  else m ++ [(k, [r])]

/-- Embeds `IssuesReport.add_record`. -/
def IssuesReport.add_record (rep : IssuesReport) (record : NRecord) : IssuesReport :=
  let rep := { rep with
    sev_to_records := setdefaultAppend rep.sev_to_records record.Severity record }
  if rep.records_have_been_sorted then
    { rep with sev_to_sorted_keys := none, records_have_been_sorted := false }
  else rep

/-- The fresh `code_to_key_and_count` entry for a first record of a code. -/
def kcInit (record : NRecord) : KeyCount :=
  { key := combine_record_code_and_description record,
    common_desc := record.Description, count := 1 }

/-- The update of an existing `code_to_key_and_count` entry by one more
record of the same code (count up; shrink the stem at the first mismatching
zip position when the description does not start with the stem). -/
def kcStep (code : PyStr) (kc : KeyCount) (record : NRecord) : KeyCount :=
  let kc := { kc with count := kc.count + 1 }
  if !kc.common_desc.isPrefixOf record.Description then
    match firstMismatchPos kc.common_desc record.Description with
    | some char_pos =>
      let new_desc_stem := kc.common_desc.take char_pos
      { kc with common_desc := new_desc_stem,
                key := combine_code_and_description code
                  (new_desc_stem ++ " ...".toList) }
    | none => kc
  else kc

/-- One record's step of the per-severity grouping loop, updating the
`code_to_key_and_count` ordered dict. -/
def groupStep (m : List (PyStr × KeyCount)) (record : NRecord) :
    List (PyStr × KeyCount) :=
  let code := record.Code
  match m.lookup code with
  | none => m ++ [(code, kcInit record)]
  | some kc => m.map (fun kv => if kv.1 = code then (code, kcStep code kc record) else kv)

/-- The per-code trace of the grouping fold: the entry a code's own records
produce (`none` while no record of the code has been seen). -/
def kcFold (code : PyStr) : Option KeyCount → List NRecord → Option KeyCount
  | o, [] => o
  | none, g :: gs => kcFold code (some (kcInit g)) gs
  | some kc, g :: gs => kcFold code (some (kcStep code kc g)) gs

/-- Fold of the longest common prefix from an initial stem. -/
def stemFold (s : PyStr) (ds : List PyStr) : PyStr := ds.foldl lcp s

/-- Look up the computed key for a code (the code is present whenever it came
from a processed record). -/
def keyForCode (m : List (PyStr × KeyCount)) (code : PyStr) : PyStr :=
  match m.lookup code with
  | some kc => kc.key
  | none => []

/-- Dict-comprehension insert: first occurrence of a key wins. -/
def insertKeyIfAbsent (m : List (PyStr × List NRecord)) (k : PyStr) :
    List (PyStr × List NRecord) :=
  if (m.lookup k).isSome then m else m ++ [(k, [])]

/-- Append a record to its key's bucket. -/
def appendAtKey (m : List (PyStr × List NRecord)) (k : PyStr) (r : NRecord) :
    List (PyStr × List NRecord) :=
  m.map (fun kv => if kv.1 = k then (kv.1, kv.2 ++ [r]) else kv)

/-- The per-severity body of `_group_records_by_key`: group one severity's
issues into an ordered dict from issue-type key to records. -/
def groupIssues (issues : List NRecord) : List (PyStr × List NRecord) :=
  let code_to_key_and_count := issues.foldl groupStep []
  let sorted_codes :=
    stableSortBy
      (fun c c' =>
        ((code_to_key_and_count.lookup c').map KeyCount.count).getD 0
          ≤ ((code_to_key_and_count.lookup c).map KeyCount.count).getD 0)
      (code_to_key_and_count.map Prod.fst)
  let keysInit := sorted_codes.foldl
    (fun acc c => insertKeyIfAbsent acc (keyForCode code_to_key_and_count c)) []
  issues.foldl
    (fun acc r => appendAtKey acc (keyForCode code_to_key_and_count r.Code) r)
    keysInit

/-- Embeds `IssuesReport._group_records_by_key`. -/
def IssuesReport.group_records_by_key (rep : IssuesReport) : IssuesReport :=
  { rep with sev_to_sorted_keys := some (rep.sev_to_records.map (fun kv => (kv.1, groupIssues kv.2))) }

/-- `le` on records by `record_sort_key` (Python sorts with this key). -/
def recordKeyLe (a b : NRecord) : Bool := strLe (record_sort_key a) (record_sort_key b)

/-- Embeds `IssuesReport._sort_record_lists`. -/
def IssuesReport.sort_record_lists (rep : IssuesReport) : IssuesReport :=
  let rep := if rep.sev_to_sorted_keys.isNone then rep.group_records_by_key else rep
  { rep with
    sev_to_sorted_keys :=
      (rep.sev_to_sorted_keys.getD []).map
        (fun kv => (kv.1, kv.2.map (fun b => (b.1, stableSortBy recordKeyLe b.2))))
      |> some,
    records_have_been_sorted := true }

/-- Embeds `IssuesReport.get_issue_count_for_severity` (no state change). -/
def IssuesReport.get_issue_count_for_severity (rep : IssuesReport) (sev : PyStr) : Nat :=
  ((rep.sev_to_records.lookup sev).getD []).length

/-- Embeds `IssuesReport.get_issue_type_count_for_severity`; returns the value
and the (possibly newly grouped) state. -/
def IssuesReport.get_issue_type_count_for_severity (rep : IssuesReport) (sev : PyStr) :
    Nat × IssuesReport :=
  let rep := if rep.sev_to_sorted_keys.isNone then rep.group_records_by_key else rep
  ((((rep.sev_to_sorted_keys.getD []).lookup sev).getD []).length, rep)

/-- Embeds `IssuesReport.get_issues_grouped_by_type_for_severity`. -/
def IssuesReport.get_issues_grouped_by_type_for_severity (rep : IssuesReport)
    (sev : PyStr) : List (PyStr × List NRecord) × IssuesReport :=
  let rep := if !rep.records_have_been_sorted then rep.sort_record_lists else rep
  ((((rep.sev_to_sorted_keys.getD []).lookup sev).getD []), rep)

/-- Embeds `IssuesReport.get_issue_type_histogram_for_severity`. -/
def IssuesReport.get_issue_type_histogram_for_severity (rep : IssuesReport)
    (sev : PyStr) : List (PyStr × Nat) × IssuesReport :=
  let rep := if rep.sev_to_sorted_keys.isNone then rep.group_records_by_key else rep
  match rep.get_issues_grouped_by_type_for_severity sev with
  | (d, rep') => (d.map (fun kv => (kv.1, kv.2.length)), rep')

/-- Embeds `IssuesReport.get_issues_for_severity`. -/
def IssuesReport.get_issues_for_severity (rep : IssuesReport) (sev : PyStr) :
    List NRecord × IssuesReport :=
  match rep.get_issues_grouped_by_type_for_severity sev with
  | (d, rep') => ((d.map Prod.snd).flatten, rep')

/-- Build a fresh report from a stream of records (`add_record` in order). -/
def buildReport (l : List NRecord) : IssuesReport :=
  l.foldl IssuesReport.add_record IssuesReport.init

/-- The closed form of a code's `code_to_key_and_count` entry after its
records have been folded: `d₀` is the first description seen, `ds` the later
ones, `n` the record count. -/
def kcSpec (c d₀ : PyStr) (ds : List PyStr) (n : Nat) : KeyCount :=
  let stem := stemFold d₀ ds
  { key := if stem = d₀ then combine_code_and_description c d₀
      else combine_code_and_description c (stem ++ " ...".toList),
    common_desc := stem, count := n }

/-- One severity's grouped-and-sorted dict, as produced by grouping followed
by the per-bucket stable sort. -/
def sortedGroupIssues (issues : List NRecord) : List (PyStr × List NRecord) :=
  (groupIssues issues).map (fun b => (b.1, stableSortBy recordKeyLe b.2))

/-- Among records sharing a severity and a code, no description is a strict
prefix of another. -/
def DescPrefixFree (l : List NRecord) : Prop :=
  ∀ a ∈ l, ∀ b ∈ l, a.Severity = b.Severity → a.Code = b.Code →
    a.Description.isPrefixOf b.Description = true → a.Description = b.Description

/-! ## Concrete instances used by the theorems -/

/-- The filter of the C1 scenario: `include=[]`, `exclude=[{"level": "error"}]`. -/
def c1_gf : GeneralFilter :=
  init_filter "test filter".toList [] [] [[("level", PropValueSpec.strSpec "error".toList)]]

/-- The three records of the C1 scenario. -/
def c1_results : List JVal :=
  [.obj [("level", .str "error".toList)],
   .obj [("level", .str "warning".toList)],
   .obj [("level", .str "error".toList)]]

/-- An inclusion filter `[{"ruleId": "test-rule"}]` (used by witnesses). -/
def w_gf_include : GeneralFilter :=
  init_filter "test filter".toList [] [[("ruleId", PropValueSpec.strSpec "test-rule".toList)]] []

/-- A result `{"ruleId": "test-rule"}` with no location. -/
def w_result : JVal := .obj [("ruleId", .str "test-rule".toList)]

/-- A run whose tool name resolves. -/
def c4_run : SarifRunM :=
  { run_data := .obj [("tool", .obj [("driver", .obj [("name", .str "tool".toList)])])] }

/-- The C4 failing input: the message duplicates the rule id. -/
def c4_result : JVal :=
  .obj [("ruleId", .str "CODE".toList), ("message", .obj [("text", .str "CODE:bad".toList)])]

/-- A result whose message has neither `text` nor `id` (C10). -/
def c10_bad_result : JVal :=
  .obj [("ruleId", .str "X".toList), ("message", .obj [("foo", .num 1)])]

/-- A result with no message and no location (C10: tolerated deficiencies). -/
def c10_plain_result : JVal := .obj [("ruleId", .str "X".toList)]

/-- A record with code `C`, description `ab`, severity `error` (C5). -/
def c5_r_ab : NRecord :=
  { Tool := "t".toList, Location := "f".toList, Line := "1".toList,
    Severity := "error".toList, Code := "C".toList, Description := "ab".toList }

/-- Same but description `abc` (a strict extension of `ab`). -/
def c5_r_abc : NRecord := { c5_r_ab with Description := "abc".toList }

/-- A record with code `A` at severity `error` (C7). -/
def c7_r_a : NRecord := { c5_r_ab with Code := "A".toList, Description := "d".toList }

/-- A record with code `B` at severity `error` (C7). -/
def c7_r_b : NRecord := { c7_r_a with Code := "B".toList }

/-- C7 failing interleaving: add, count (builds the grouping cache without
sorting), add, count. -/
def c7_stale_state : IssuesReport :=
  (((IssuesReport.init.add_record c7_r_a).get_issue_type_count_for_severity
      "error".toList).2).add_record c7_r_b

/-- A run with rules and invocations (the severity scenarios). -/
def c3_run : JVal := .obj
  [("invocations", .arr
     [.obj [("ruleConfigurationOverrides", .arr
       [.obj [("descriptor", .obj [("id", .str "id1".toList)]),
              ("configuration", .obj [("level", .str "note".toList)])]])],
      .obj [("ruleConfigurationOverrides", .arr
       [.obj [("descriptor", .obj [("index", .num 1)]),
              ("configuration", .obj [("level", .str "note".toList)])]])]]),
   ("tool", .obj [("driver", .obj [("rules", .arr
     [.obj [("id", .str "id0".toList),
            ("defaultConfiguration", .obj [("level", .str "none".toList)])],
      .obj [("id", .str "id1".toList),
            ("defaultConfiguration", .obj [("level", .str "error".toList)])]])])])]

/-- Fold step computing the longest common prefix of a collection
(`none` = nothing seen yet); used to characterise the grouping stem. -/
def olcpStep : Option PyStr → PyStr → Option PyStr
  | none, d => some d
  | some s, d => some (lcp s d)

/-- Longest common prefix of a list of strings (`none` on the empty list). -/
def lcpAll (l : List PyStr) : Option PyStr := l.foldl olcpStep none

/-- The descriptions of the records of one code within a severity bucket. -/
def descsFor (issues : List NRecord) (code : PyStr) : List PyStr :=
  (issues.filter (fun r => r.Code = code)).map NRecord.Description

/-- No string of the list is a strict prefix of another (the hypothesis under
which the grouping stem is exactly the longest common prefix). -/
def PrefixFree (l : List PyStr) : Prop :=
  ∀ a ∈ l, ∀ b ∈ l, a.isPrefixOf b = true → a = b

/-- `record_sort_key` distinguishes the records of the list. -/
def SortKeyInj (l : List NRecord) : Prop :=
  ∀ a ∈ l, ∀ b ∈ l, record_sort_key a = record_sort_key b → a = b

/-- The properties bag of a result without its `filtered` entry. -/
def propsExceptFiltered (r : JVal) : JVal :=
  (r.getD "properties" (.obj [])).objRemove "filtered"


/-- The compiled `ruleId: test-rule` term (witness instances). -/
def w_pf : PropertyFilter :=
  mkPropertyFilter "ruleId" (.strSpec "test-rule".toList) DEFAULT_CONFIGURATION

/-! ## Theorems -/

/-- Claim C9: deserialising the compact form of any `FilterStats` value
(`load_filter_stats_from_json(s.to_json_camel_case())`) yields a `FilterStats`
whose description and all four counters are identical to those of `s`. -/
theorem c9_filter_stats_roundtrip (s : FilterStats) :
    load_filter_stats_from_json s.to_json_camel_case
      = some { filter_description := s.filter_description, rehydrated := true,
               filtered_in_result_count := s.filtered_in_result_count,
               filtered_out_result_count := s.filtered_out_result_count,
               missing_property_count := s.missing_property_count,
               unconvincing_line_number_count := s.unconvincing_line_number_count } :=
  rfl

/-- Claim C1 (code evaluation at the failing input): filtering the records
`[{"level":"error"}, {"level":"warning"}, {"level":"error"}]` with no include
rules and `exclude=[{"level":"error"}]` returns the empty list with
`filtered_out_result_count = 3`, not the warning record with count 2 as the
claim (and the repository's own test `test_filter_results_exclude_not_all`)
state: the records carry no line number, so the `check-line-number` guard
skips the `level` term and the exclusion rule matches vacuously. -/
theorem c1_scenario_code_eval :
    (filter_results c1_gf c1_results).2.2 = []
  ∧ (filter_results c1_gf c1_results).1.filtered_out_result_count = 3
  ∧ (filter_results c1_gf c1_results).1.filtered_in_result_count = 0 :=
  ⟨rfl, rfl, rfl⟩

/-- Claim C4 (code evaluation at the failing input): for the result
`{"ruleId": "CODE", "message": {"text": "CODE:bad"}}` the record's Description
is the single character `b` (`message[len(error_id) + 1]` indexes one
character instead of slicing), not the remaining text `bad` the claim
states. -/
theorem c4_description_single_char_eval :
    result_to_record c4_run c4_result
      = .ok { Tool := "tool".toList, Location := "-".toList, Line := "1".toList,
              Severity := "warning".toList, Code := "CODE".toList,
              Description := "b".toList } :=
  rfl

/-- Claim C7 (code evaluation at the failing input): after add A, count,
add B, the count query returns the stale cached value 1, while the same two
records in a fresh report give 2 — `add_record` does not invalidate a cache
built by a grouping-only query (`_records_have_been_sorted` is still false). -/
theorem c7_stale_cache_eval :
    (c7_stale_state.get_issue_type_count_for_severity "error".toList).1 = 1
  ∧ ((buildReport [c7_r_a, c7_r_b]).get_issue_type_count_for_severity
      "error".toList).1 = 2 :=
  ⟨rfl, rfl⟩

/-- Claim C5 (counterexample): the same two records, inserted in the two
orders, produce different grouped output for severity `error` (issue-type key
`C ab` versus `C abc`): when a description is a proper prefix of the current
stem, the zip loop finds no mismatching position and the stem is not
shrunk. -/
theorem c5_order_dependence_counterexample :
    ¬(((buildReport [c5_r_ab, c5_r_abc]).get_issues_grouped_by_type_for_severity
        "error".toList).1
      = ((buildReport [c5_r_abc, c5_r_ab]).get_issues_grouped_by_type_for_severity
        "error".toList).1) := by
  decide

/-- Claim C6 (counterexample): a record excluded by the exclusion filter is
processed but ends with no `filtered` entry in its properties bag
(`_filter_append` returns before writing the new entry), contrary to the
claim that every processed record gets one. -/
theorem c6_excluded_record_no_filtered_entry :
    ((((filter_results c1_gf [.obj [("level", .str "error".toList)]]).2.1.headD
        .null).getD "properties" (.obj [])).hasKey "filtered") = false :=
  rfl

/-- Claim C8 (counterexample): for a 121-character code and the empty
description, `combine_code_and_description` returns the code itself, whose
length 121 exceeds the 120-character budget the claim asserts for every code
and description. -/
theorem c8_long_code_exceeds_budget :
    ¬((combine_code_and_description (List.replicate 121 'a') []).length ≤ 120) := by
  decide

/-- Claim C3: `read_result_severity` follows the layered fallback: a truthy
explicit `level` wins; else a present truthy `kind` other than `fail` gives
`none`; else, with the rule resolved, a matching invocation override level if
any, else the rule's `defaultConfiguration` level if any; else `warning` —
with an unresolvable rule silently giving `warning`, and `{"kind": "other"}`
giving `none`. -/
theorem c3_read_result_severity_layering :
    (∀ result run v, result.get "level" = some v → v.truthy = true →
        read_result_severity result run = v)
  ∧ (∀ result run, JVal.optTruthy (result.get "level") = false →
        (result.getD "kind" (.str "fail".toList)).truthy = true →
        jBeq (result.getD "kind" (.str "fail".toList)) (.str "fail".toList) = false →
        read_result_severity result run = .str "none".toList)
  ∧ (∀ result run rule i v, JVal.optTruthy (result.get "level") = false →
        ((result.getD "kind" (.str "fail".toList)).truthy = false ∨
          jBeq (result.getD "kind" (.str "fail".toList)) (.str "fail".toList) = true) →
        read_result_rule result run = (some rule, i) → rule.truthy = true →
        rule_override_level result run rule i = some v →
        read_result_severity result run = v)
  ∧ (∀ result run rule i dc lvl, JVal.optTruthy (result.get "level") = false →
        ((result.getD "kind" (.str "fail".toList)).truthy = false ∨
          jBeq (result.getD "kind" (.str "fail".toList)) (.str "fail".toList) = true) →
        read_result_rule result run = (some rule, i) → rule.truthy = true →
        rule_override_level result run rule i = none →
        rule.get "defaultConfiguration" = some dc → dc.truthy = true →
        dc.get "level" = some lvl → lvl.truthy = true →
        read_result_severity result run = lvl)
  ∧ (∀ result run i, JVal.optTruthy (result.get "level") = false →
        ((result.getD "kind" (.str "fail".toList)).truthy = false ∨
          jBeq (result.getD "kind" (.str "fail".toList)) (.str "fail".toList) = true) →
        read_result_rule result run = (none, i) →
        read_result_severity result run = .str "warning".toList)
  ∧ read_result_severity (.obj [("kind", .str "other".toList)]) (.obj [])
      = .str "none".toList
  ∧ read_result_severity (.obj [("ruleIndex", .num 99)]) c3_run
      = .str "warning".toList := by
  refine ⟨?_, ?_, ?_, ?_, ?_, rfl, rfl⟩
  · intro result run v h ht
    simp [read_result_severity, h, JVal.optTruthy, ht]
  · intro result run hl ht hne
    simp at ht hne
    simp [read_result_severity, hl]
    intro h
    exact absurd (h ht) (by simp [hne])
  · intro result run rule i v hl hk hr hrt ho
    simp at hk
    simp [read_result_severity, hl, hr, hrt, ho]
    intro h1 h2
    rcases hk with hk | hk
    · simp [hk] at h1
    · simp [hk] at h2
  · intro result run rule i dc lvl hl hk hr hrt ho hdc hdct hlv hlt
    simp at hk
    simp [read_result_severity, hl, hr, hrt, ho, hdc, hdct, hlv, hlt]
    intro h1 h2
    rcases hk with hk | hk
    · simp [hk] at h1
    · simp [hk] at h2
  · intro result run i hl hk hr
    simp at hk
    simp [read_result_severity, hl, hr]
    intro h1
    rcases hk with hk | hk
    · simp [hk] at h1
    · exact hk

/-- Witness for C3: each branch applied at a concrete input (explicit level;
non-fail kind; invocation override; default configuration; unresolvable rule
id). -/
theorem c3_read_result_severity_layering_witness :
    read_result_severity (.obj [("level", .str "error".toList)]) (.obj [])
      = .str "error".toList
  ∧ read_result_severity (.obj [("kind", .str "other".toList)]) (.obj [])
      = .str "none".toList
  ∧ read_result_severity
      (.obj [("ruleIndex", .num 1), ("provenance", .obj [("invocationIndex", .num 0)])])
      c3_run = .str "note".toList
  ∧ read_result_severity (.obj [("ruleId", .str "id1".toList)]) c3_run
      = .str "error".toList
  ∧ read_result_severity (.obj [("ruleId", .str "nope".toList)]) c3_run
      = .str "warning".toList := by
  obtain ⟨h1, h2, h3, h4, h5, _, _⟩ := c3_read_result_severity_layering
  refine ⟨h1 _ _ _ rfl rfl, h2 _ _ rfl rfl rfl, ?_, ?_, ?_⟩
  · exact h3 _ _ (.obj [("id", .str "id1".toList),
      ("defaultConfiguration", .obj [("level", .str "error".toList)])]) 1
      (.str "note".toList) rfl (.inr rfl) rfl rfl rfl
  · exact h4 _ _ (.obj [("id", .str "id1".toList),
      ("defaultConfiguration", .obj [("level", .str "error".toList)])]) 1
      (.obj [("level", .str "error".toList)]) (.str "error".toList)
      rfl (.inr rfl) rfl rfl rfl rfl rfl rfl rfl
  · exact h5 _ _ (-1) rfl (.inr rfl) rfl

/-- Claim C10: `result_to_record` raises iff the result's message has neither
a `text` nor an `id` field (given the data model's required `ruleId` and a
resolvable tool name); a missing message falls back to the rule id, and
missing locations or unresolvable rules never raise. -/
theorem c10_message_error_iff :
    ∀ run result rid tn,
      result.get "ruleId" = some rid →
      get_tool_name run = .ok tn →
      ((∃ e, result_to_record run result = .error e) ↔
        (∃ m, result.get "message" = some m ∧
          m.hasKey "text" = false ∧ m.hasKey "id" = false)) := by
  intro run result rid tn hrid htool
  rcases hm : result.get "message" with _ | m
  · simp [result_to_record, getItem, hrid, htool, JVal.hasKey, hm, JVal.getD,
      Bind.bind, Except.bind, Pure.pure, Except.pure]
  · rcases htx : m.get "text" with _ | t
    · rcases hid : m.get "id" with _ | u
      · simp [result_to_record, getItem, hrid, htool, JVal.hasKey, hm, JVal.getD,
          htx, hid, Bind.bind, Except.bind, Pure.pure, Except.pure]
      · simp [result_to_record, getItem, hrid, htool, JVal.hasKey, hm, JVal.getD,
          htx, hid, Bind.bind, Except.bind, Pure.pure, Except.pure]
    · simp [result_to_record, getItem, hrid, htool, JVal.hasKey, hm, JVal.getD,
        htx, Bind.bind, Except.bind, Pure.pure, Except.pure]

/-- Witness for C10: the result whose message has neither `text` nor `id`
raises; the result with no message at all does not. -/
theorem c10_message_error_iff_witness :
    (∃ e, result_to_record c4_run c10_bad_result = .error e)
  ∧ ¬(∃ e, result_to_record c4_run c10_plain_result = .error e) := by
  constructor
  · exact (c10_message_error_iff c4_run c10_bad_result (.str "X".toList)
      (.str "tool".toList) rfl rfl).mpr ⟨.obj [("foo", .num 1)], rfl, rfl, rfl⟩
  · intro h
    have h2 := (c10_message_error_iff c4_run c10_plain_result (.str "X".toList)
      (.str "tool".toList) rfl rfl).mp h
    rcases h2 with ⟨m, hm, _⟩
    simp [c10_plain_result, JVal.get, List.lookup] at hm


/-- Unfolding lemma for `List.lookup` with propositional key comparison. -/
theorem lookup_cons_eq (k a : String) (b : JVal) (tl : List (String × JVal)) :
    List.lookup k ((a, b) :: tl) = if k = a then some b else List.lookup k tl := by
  by_cases h : k = a
  · simp [List.lookup, h]
  · have hb : (k == a) = false := beq_eq_false_iff_ne.mpr h
    simp [List.lookup, hb, h]

/-- Replacing a present key then looking it up gives the new value. -/
theorem lookup_map_replace (k : String) (v : JVal) :
    ∀ (kvs : List (String × JVal)), (kvs.lookup k).isSome = true →
    (kvs.map (fun kv => if kv.1 = k then (k, v) else kv)).lookup k = some v := by
  intro kvs
  induction kvs with
  | nil => intro h; simp [List.lookup] at h
  | cons hd tl ih =>
    obtain ⟨a, b⟩ := hd
    intro h
    simp only [List.map_cons]
    by_cases ha : a = k
    · rw [if_pos ha, lookup_cons_eq, if_pos rfl]
    · rw [if_neg ha, lookup_cons_eq, if_neg (fun he => ha he.symm)]
      rw [lookup_cons_eq, if_neg (fun he => ha he.symm)] at h
      exact ih h

/-- Appending a fresh key then looking it up gives the new value. -/
theorem lookup_append_single (k : String) (v : JVal) :
    ∀ (kvs : List (String × JVal)), kvs.lookup k = none →
    ((kvs ++ [(k, v)]).lookup k) = some v := by
  intro kvs
  induction kvs with
  | nil => intro _; rw [List.nil_append, lookup_cons_eq, if_pos rfl]
  | cons hd tl ih =>
    obtain ⟨a, b⟩ := hd
    intro h
    rw [lookup_cons_eq] at h
    by_cases ha : k = a
    · rw [if_pos ha] at h; exact absurd h (by simp)
    · rw [if_neg ha] at h
      rw [List.cons_append, lookup_cons_eq, if_neg ha]
      exact ih h

/-- Replacing one key leaves the lookup of other keys unchanged. -/
theorem lookup_map_replace_other (k : String) (v : JVal) (q : String) (h : q ≠ k) :
    ∀ (kvs : List (String × JVal)),
    (kvs.map (fun kv => if kv.1 = k then (k, v) else kv)).lookup q = kvs.lookup q := by
  intro kvs
  induction kvs with
  | nil => rfl
  | cons hd tl ih =>
    obtain ⟨a, b⟩ := hd
    simp only [List.map_cons]
    by_cases ha : a = k
    · rw [if_pos ha, lookup_cons_eq, lookup_cons_eq, ha, if_neg h, if_neg h]
      exact ih
    · rw [if_neg ha, lookup_cons_eq, lookup_cons_eq]
      by_cases hq : q = a
      · rw [if_pos hq, if_pos hq]
      · rw [if_neg hq, if_neg hq]
        exact ih

/-- Appending one key leaves the lookup of other keys unchanged. -/
theorem lookup_append_single_other (k : String) (v : JVal) (q : String) (h : q ≠ k) :
    ∀ (kvs : List (String × JVal)),
    ((kvs ++ [(k, v)]).lookup q) = kvs.lookup q := by
  intro kvs
  induction kvs with
  | nil => rw [List.nil_append, lookup_cons_eq, if_neg h]
  | cons hd tl ih =>
    obtain ⟨a, b⟩ := hd
    rw [List.cons_append, lookup_cons_eq, lookup_cons_eq]
    by_cases hq : q = a
    · rw [if_pos hq, if_pos hq]
    · rw [if_neg hq, if_neg hq]
      exact ih

/-- After filtering a key out, its lookup is `none`. -/
theorem lookup_filter_ne (k : String) :
    ∀ (kvs : List (String × JVal)),
    ((kvs.filter (fun kv => kv.1 ≠ k)).lookup k) = none := by
  intro kvs
  induction kvs with
  | nil => rfl
  | cons hd tl ih =>
    obtain ⟨a, b⟩ := hd
    by_cases ha : a = k
    · rw [List.filter_cons_of_neg (by simp [ha])]
      exact ih
    · rw [List.filter_cons_of_pos (by simp [ha]), lookup_cons_eq,
        if_neg (fun he => ha he.symm)]
      exact ih

/-- Replacing a key then dropping it equals dropping it directly. -/
theorem filter_map_replace (k : String) (v : JVal) :
    ∀ (kvs : List (String × JVal)),
    ((kvs.map (fun kv => if kv.1 = k then (k, v) else kv)).filter
        (fun kv => kv.1 ≠ k))
      = kvs.filter (fun kv => kv.1 ≠ k) := by
  intro kvs
  induction kvs with
  | nil => rfl
  | cons hd tl ih =>
    obtain ⟨a, b⟩ := hd
    simp only [List.map_cons]
    by_cases ha : a = k
    · rw [if_pos ha, List.filter_cons_of_neg (by simp),
        List.filter_cons_of_neg (by simp [ha])]
      exact ih
    · rw [if_neg ha, List.filter_cons_of_pos (by simp [ha]),
        List.filter_cons_of_pos (by simp [ha]), ih]

/-- Appending a key then dropping it equals dropping it directly. -/
theorem filter_append_single (k : String) (v : JVal) (kvs : List (String × JVal)) :
    (((kvs ++ [(k, v)]).filter (fun kv => kv.1 ≠ k)))
      = kvs.filter (fun kv => kv.1 ≠ k) := by
  rw [List.filter_append, List.filter_cons_of_neg (by simp), List.filter_nil,
    List.append_nil]

/-- Dropping a key twice equals dropping it once. -/
theorem filter_ne_idem (k : String) (kvs : List (String × JVal)) :
    ((kvs.filter (fun kv => kv.1 ≠ k)).filter (fun kv => kv.1 ≠ k))
      = kvs.filter (fun kv => kv.1 ≠ k) := by
  induction kvs with
  | nil => rfl
  | cons hd tl ih =>
    obtain ⟨a, b⟩ := hd
    by_cases ha : a = k
    · rw [List.filter_cons_of_neg (by simp [ha])]
      exact ih
    · rw [List.filter_cons_of_pos (by simp [ha]), List.filter_cons_of_pos (by simp [ha]),
        ih]

/-- `objSet` then `get` of the same key gives the value just set. -/
theorem objSet_get_same (kvs : List (String × JVal)) (k : String) (v : JVal) :
    ((JVal.obj kvs).objSet k v).get k = some v := by
  by_cases h : (kvs.lookup k).isSome = true
  · simp only [JVal.objSet, h, if_pos, JVal.get]
    exact lookup_map_replace k v kvs h
  · have h' : kvs.lookup k = none := by
      rcases hx : kvs.lookup k with _ | w
      · rfl
      · rw [hx] at h; simp at h
    simp only [JVal.objSet, h', JVal.get]
    simp only [Option.isSome_none, Bool.false_eq_true, if_false]
    exact lookup_append_single k v kvs h'

/-- `objSet` then `get` of another key is unchanged. -/
theorem objSet_get_other (kvs : List (String × JVal)) (k : String) (v : JVal)
    (q : String) (h : q ≠ k) :
    ((JVal.obj kvs).objSet k v).get q = (JVal.obj kvs).get q := by
  by_cases hs : (kvs.lookup k).isSome = true
  · simp only [JVal.objSet, hs, if_pos, JVal.get]
    exact lookup_map_replace_other k v q h kvs
  · have h' : kvs.lookup k = none := by
      rcases hx : kvs.lookup k with _ | w
      · rfl
      · rw [hx] at hs; simp at hs
    simp only [JVal.objSet, h', JVal.get, Option.isSome_none, Bool.false_eq_true, if_false]
    exact lookup_append_single_other k v q h kvs

/-- `objSet` of a key then removing it equals removing it directly. -/
theorem objSet_objRemove_same (kvs : List (String × JVal)) (k : String) (v : JVal) :
    ((JVal.obj kvs).objSet k v).objRemove k = (JVal.obj kvs).objRemove k := by
  by_cases hs : (kvs.lookup k).isSome = true
  · simp only [JVal.objSet, hs, if_pos, JVal.objRemove]
    rw [filter_map_replace]
  · have h' : kvs.lookup k = none := by
      rcases hx : kvs.lookup k with _ | w
      · rfl
      · rw [hx] at hs; simp at hs
    simp only [JVal.objSet, h', JVal.objRemove, Option.isSome_none, Bool.false_eq_true,
      if_false]
    rw [filter_append_single]

/-- After `popFilteredLog` on an object record (whose properties value, when
present, is itself an object), the properties bag exists and carries no
`filtered` entry. -/
theorem popFilteredLog_props (kvs : List (String × JVal))
    (hprops : ∀ p, (JVal.obj kvs).get "properties" = some p → ∃ pk, p = JVal.obj pk) :
    ∃ qk, (popFilteredLog (.obj kvs)).get "properties" = some (.obj qk)
      ∧ qk.lookup "filtered" = none
      ∧ ∃ rk, popFilteredLog (.obj kvs) = .obj rk := by
  unfold popFilteredLog
  by_cases hk : (JVal.obj kvs).hasKey "properties" = true
  · rw [if_pos hk]
    have hex : ∃ p, (JVal.obj kvs).get "properties" = some p := by
      rw [JVal.hasKey, Option.isSome_iff_exists] at hk
      exact hk
    obtain ⟨p, hp⟩ := hex
    obtain ⟨pk, rfl⟩ := hprops p hp
    simp only [JVal.getD]
    rw [hp]
    simp only [Option.getD_some, JVal.objRemove]
    refine ⟨pk.filter (fun kv => kv.1 ≠ "filtered"), ?_, lookup_filter_ne _ pk, ?_⟩
    · exact objSet_get_same kvs "properties" (.obj (pk.filter (fun kv => kv.1 ≠ "filtered")))
    · simp [JVal.objSet]
  · rw [if_neg hk]
    have hnone : kvs.lookup "properties" = none := by
      rw [JVal.hasKey] at hk
      simp only [JVal.get] at hk
      rcases hx : kvs.lookup "properties" with _ | w
      · rfl
      · rw [hx] at hk; simp at hk
    have h1 : (JVal.obj kvs).objSet "properties" (.obj [])
        = JVal.obj (kvs ++ [("properties", JVal.obj [])]) := by
      simp [JVal.objSet, hnone]
    rw [h1]
    have h2 : (JVal.obj (kvs ++ [("properties", JVal.obj [])])).get "properties"
        = some (.obj []) := by
      simp only [JVal.get]
      exact lookup_append_single _ _ kvs hnone
    simp only [JVal.getD]
    rw [h2]
    simp only [Option.getD_some, JVal.objRemove, List.filter_nil]
    refine ⟨[], ?_, rfl, ?_⟩
    · exact objSet_get_same _ "properties" (.obj [])
    · simp [JVal.objSet]

/-- `popFilteredLog` leaves every key other than `properties` unchanged. -/
theorem popFilteredLog_get_other (kvs : List (String × JVal)) (q : String)
    (h : q ≠ "properties") :
    (popFilteredLog (.obj kvs)).get q = (JVal.obj kvs).get q := by
  unfold popFilteredLog
  by_cases hk : (JVal.obj kvs).hasKey "properties" = true
  · rw [if_pos hk]
    obtain ⟨rk, hrk⟩ : ∃ rk, (JVal.obj kvs).objSet "properties"
        (((JVal.obj kvs).getD "properties" (.obj [])).objRemove "filtered")
        = JVal.obj rk := by simp [JVal.objSet]
    rw [objSet_get_other kvs _ _ q h]
  · rw [if_neg hk]
    have hnone : kvs.lookup "properties" = none := by
      rw [JVal.hasKey] at hk
      simp only [JVal.get] at hk
      rcases hx : kvs.lookup "properties" with _ | w
      · rfl
      · rw [hx] at hk; simp at hk
    have h1 : (JVal.obj kvs).objSet "properties" (.obj [])
        = JVal.obj (kvs ++ [("properties", JVal.obj [])]) := by
      simp [JVal.objSet, hnone]
    rw [h1, objSet_get_other _ _ _ q h]
    simp only [JVal.get]
    exact lookup_append_single_other _ _ q h kvs

/-- `popFilteredLog` preserves the properties bag minus its `filtered` entry. -/
theorem popFilteredLog_props_except (kvs : List (String × JVal)) :
    propsExceptFiltered (popFilteredLog (.obj kvs))
      = propsExceptFiltered (.obj kvs) := by
  unfold popFilteredLog propsExceptFiltered
  by_cases hk : (JVal.obj kvs).hasKey "properties" = true
  · rw [if_pos hk]
    simp only [JVal.getD]
    rw [objSet_get_same]
    simp only [Option.getD_some]
    rcases hx : (JVal.obj kvs).get "properties" with _ | p
    · rw [JVal.hasKey, hx] at hk; simp at hk
    · simp only [Option.getD_some]
      rcases p with _ | _ | _ | _ | _ | pk
      · rfl
      · rfl
      · rfl
      · rfl
      · rfl
      · simp only [JVal.objRemove]
        rw [filter_ne_idem]
  · rw [if_neg hk]
    have hnone : kvs.lookup "properties" = none := by
      rw [JVal.hasKey] at hk
      simp only [JVal.get] at hk
      rcases hx : kvs.lookup "properties" with _ | w
      · rfl
      · rw [hx] at hk; simp at hk
    have h1 : (JVal.obj kvs).objSet "properties" (.obj [])
        = JVal.obj (kvs ++ [("properties", JVal.obj [])]) := by
      simp [JVal.objSet, hnone]
    rw [h1]
    simp only [JVal.getD]
    rw [objSet_get_same]
    simp only [Option.getD_some]
    have h2 : (JVal.obj (kvs ++ [("properties", JVal.obj [])])).get "properties"
        = some (.obj []) := by
      simp only [JVal.get]
      exact lookup_append_single _ _ kvs hnone
    rw [h2]
    simp only [Option.getD_some]
    simp only [JVal.get, hnone, Option.getD_none]
    rfl

/-- After writing the filtered log, looking up its `state` gives the stats
state. -/
theorem setFilteredLog_state (rk qk : List (String × JVal)) (fr : FRStats)
    (desc : PyStr)
    (hq : (JVal.obj rk).get "properties" = some (.obj qk)) :
    (((setFilteredLog (.obj rk) (encodeFRStats fr desc)).getD "properties"
        (.obj [])).getD "filtered" .null).getD "state" .null
      = .str fr.state.toList := by
  unfold setFilteredLog
  simp only [JVal.getD]
  rw [hq]
  simp only [Option.getD_some]
  rw [objSet_get_same]
  simp only [Option.getD_some]
  rw [objSet_get_same]
  simp only [Option.getD_some]
  simp [encodeFRStats, JVal.get, lookup_cons_eq]

/-- Claim C2: when a record's extracted line number is missing or is the
string `"1"`, every filter term whose effective `check-line-number`
configuration is true is skipped with a warning and without consulting the
record's property value; the skipped term cannot fail its rule (a rule all of
whose terms are so skipped matches outright); and a record included with
inclusion state `noLineNumber` (line-number warnings only, no
missing-property defaulting) is counted in `unconvincing_line_number_count`
rather than `filtered_in_result_count`, with annotation state
`noLineNumber`. -/
theorem c2_line_number_skip :
    (∀ (result : JVal) (pf : PropertyFilter) (rest : List PropertyFilter)
        (ws : List PyStr) (np : Bool),
        unconvincingLineNumber result = true →
        cfgGet pf.filter_configuration "check-line-number" true = true →
        evalTerms result (unconvincingLineNumber result) (pf :: rest) ws np
          = evalTerms result (unconvincingLineNumber result) rest
              (ws ++ [lineNoWarning pf.prop_path]) np)
  ∧ (∀ (result : JVal) (terms : List PropertyFilter) (ws : List PyStr) (np : Bool),
        unconvincingLineNumber result = true →
        (∀ pf ∈ terms, cfgGet pf.filter_configuration "check-line-number" true = true) →
        evalTerms result (unconvincingLineNumber result) terms ws np
          = (ws ++ terms.map (fun pf => lineNoWarning pf.prop_path), np, true))
  ∧ (∀ (gf : GeneralFilter) (st : FilterStats) (acc : List JVal)
        (kvs : List (String × JVal)),
        gf.apply_inclusion_filter = true →
        (_filter_result (popFilteredLog (.obj kvs)) gf.include_filters).state
          = "noLineNumber" →
        ((_filter_result (popFilteredLog (.obj kvs)) gf.include_filters).matchedFilter.isEmpty)
          = false →
        (gf.apply_exclusion_filter = true →
          ((_filter_result (popFilteredLog (.obj kvs)) gf.exclude_filters).matchedFilter.isEmpty)
            = true) →
        (∀ p, (JVal.obj kvs).get "properties" = some p → ∃ pk, p = JVal.obj pk) →
        (_filter_append gf st acc (.obj kvs)).1
            = { st with unconvincing_line_number_count :=
                  st.unconvincing_line_number_count + 1 }
          ∧ (_filter_append gf st acc (.obj kvs)).2.2
              = acc ++ [(_filter_append gf st acc (.obj kvs)).2.1]
          ∧ (((_filter_append gf st acc (.obj kvs)).2.1.getD "properties"
              (.obj [])).getD "filtered" .null).getD "state" .null
              = .str "noLineNumber".toList) := by
  refine ⟨?_, ?_, ?_⟩
  · intro result pf rest ws np hu hc
    rw [hu]
    simp [evalTerms, hc]
  · intro result terms
    induction terms with
    | nil =>
      intro ws np hu _
      rw [hu]
      simp [evalTerms]
    | cons pf rest ih =>
      intro ws np hu hall
      rw [hu] at ih ⊢
      simp only [evalTerms, hall pf (by simp), if_true, Bool.and_true, if_pos]
      rw [ih (ws ++ [lineNoWarning pf.prop_path]) np rfl
        (fun q hq => hall q (by simp [hq]))]
      simp [List.append_assoc]
  · intro gf st acc kvs hincl hstate hmatched hexcl hprops
    obtain ⟨qk, hq, hqf, rk, hrk⟩ := popFilteredLog_props kvs hprops
    have hexcl' : (gf.apply_exclusion_filter
        && !((_filter_result (popFilteredLog (.obj kvs)) gf.exclude_filters).matchedFilter.isEmpty)) = false := by
      by_cases he : gf.apply_exclusion_filter = true
      · rw [he, hexcl he]; rfl
      · rw [Bool.not_eq_true] at he
        rw [he]; rfl
    have hstate' : ((_filter_result (popFilteredLog (.obj kvs)) gf.include_filters).state
        = "included") = False := by
      simp [hstate]
    have hstate2 : ((_filter_result (popFilteredLog (.obj kvs)) gf.include_filters).state
        = "noLineNumber") = True := by
      simp [hstate]
    simp only [_filter_append, hincl, if_true, hmatched, Bool.and_false, hexcl',
      Bool.false_eq_true, if_false, hstate', hstate2, if_true]
    refine ⟨trivial, trivial, ?_⟩
    rw [hrk] at hstate hq
    rw [hrk, setFilteredLog_state rk qk _ st.filter_description hq, hstate]

/-- Witness for C2: the `ruleId` term of the inclusion filter is skipped for
the location-less record `{"ruleId": "test-rule"}`, and the record is included
with the `noLineNumber` state counted in `unconvincing_line_number_count`. -/
theorem c2_line_number_skip_witness :
    evalTerms w_result (unconvincingLineNumber w_result) [w_pf] [] false
      = evalTerms w_result (unconvincingLineNumber w_result) []
          ([] ++ [lineNoWarning w_pf.prop_path]) false
  ∧ (_filter_append w_gf_include (mkFilterStats "test filter".toList) [] w_result).1
      = { mkFilterStats "test filter".toList with
          unconvincing_line_number_count :=
            (mkFilterStats "test filter".toList).unconvincing_line_number_count + 1 }
  ∧ (((_filter_append w_gf_include (mkFilterStats "test filter".toList) []
      w_result).2.1.getD "properties" (.obj [])).getD "filtered" .null).getD
      "state" .null = .str "noLineNumber".toList := by
  obtain ⟨h1, h2, h3⟩ := c2_line_number_skip
  have hp3 := h3 w_gf_include (mkFilterStats "test filter".toList) []
    [("ruleId", JVal.str "test-rule".toList)] rfl rfl rfl
    (fun h => absurd h (by decide))
    (fun p hp => Option.noConfusion hp)
  exact ⟨h1 w_result w_pf [] [] false rfl rfl, hp3.1, hp3.2.2⟩

/-- The written filter log names the filter that produced it. -/
theorem encodeFRStats_get_filter (fr : FRStats) (desc : PyStr) :
    (encodeFRStats fr desc).get "filter" = some (.str desc) := by
  unfold encodeFRStats
  by_cases hw : fr.warnings.isEmpty = true
  · simp [hw, JVal.get, lookup_cons_eq]
  · simp only [Bool.not_eq_true] at hw
    simp [hw, JVal.get, lookup_cons_eq]

/-- Claim C6 (amended): for every record processed by `_filter_append` (an
object record whose properties value, when present, is an object): every
top-level field other than `properties` is unchanged; the properties bag
minus its `filtered` entry is unchanged (any previous annotation is removed);
a record that passes the filter carries a fresh `filtered` annotation naming
this filter; a record that is filtered out ends with no `filtered`
annotation. -/
theorem c6_filter_log_frame (gf : GeneralFilter) (st : FilterStats) (acc : List JVal)
    (kvs : List (String × JVal))
    (hprops : ∀ p, (JVal.obj kvs).get "properties" = some p → ∃ pk, p = JVal.obj pk) :
    (∀ q, q ≠ "properties" →
      ((_filter_append gf st acc (.obj kvs)).2.1).get q = (JVal.obj kvs).get q)
  ∧ propsExceptFiltered ((_filter_append gf st acc (.obj kvs)).2.1)
      = propsExceptFiltered (.obj kvs)
  ∧ ((_filter_append gf st acc (.obj kvs)).2.2 ≠ acc →
      ∃ ann, ((_filter_append gf st acc (.obj kvs)).2.1.getD "properties"
        (.obj [])).get "filtered" = some ann
        ∧ ann.get "filter" = some (.str st.filter_description))
  ∧ ((_filter_append gf st acc (.obj kvs)).2.2 = acc →
      ((_filter_append gf st acc (.obj kvs)).2.1.getD "properties"
        (.obj [])).get "filtered" = none) := by
  obtain ⟨qk, hq, hqf, rk, hrk⟩ := popFilteredLog_props kvs hprops
  have hP := popFilteredLog_get_other kvs
  have hPE := popFilteredLog_props_except kvs
  -- excluded-shape facts, shared by the two early-return branches
  have hExcludedProps : ((popFilteredLog (.obj kvs)).getD "properties"
      (.obj [])).get "filtered" = none := by
    simp only [JVal.getD]
    rw [hq]
    simp only [Option.getD_some, JVal.get]
    exact hqf
  -- included-shape facts
  have hIncProps : ∀ fr : FRStats,
      ((setFilteredLog (popFilteredLog (.obj kvs)) (encodeFRStats fr st.filter_description)).getD
        "properties" (.obj [])).get "filtered"
      = some (encodeFRStats fr st.filter_description) := by
    intro fr
    rw [hrk]
    unfold setFilteredLog
    simp only [JVal.getD]
    rw [hrk] at hq
    rw [hq]
    simp only [Option.getD_some]
    rw [objSet_get_same]
    simp only [Option.getD_some]
    rw [objSet_get_same]
  have hIncOther : ∀ (log : JVal) (q : String), q ≠ "properties" →
      (setFilteredLog (popFilteredLog (.obj kvs)) log).get q = (JVal.obj kvs).get q := by
    intro log q hne
    rw [hrk]
    unfold setFilteredLog
    rw [objSet_get_other rk _ _ q hne, ← hrk]
    exact hP q hne
  have hIncPE : ∀ log : JVal,
      propsExceptFiltered (setFilteredLog (popFilteredLog (.obj kvs)) log)
        = propsExceptFiltered (.obj kvs) := by
    intro log
    rw [← hPE, hrk]
    unfold setFilteredLog propsExceptFiltered
    simp only [JVal.getD]
    rw [hrk] at hq
    rw [hq]
    simp only [Option.getD_some]
    rw [objSet_get_same]
    simp only [Option.getD_some]
    rw [objSet_objRemove_same]
  -- now case on the three branches of `_filter_append`
  by_cases h1 : (gf.apply_inclusion_filter
      && (if gf.apply_inclusion_filter
          then _filter_result (popFilteredLog (.obj kvs)) gf.include_filters
          else { state := "included", matchedFilter := [], warnings := [] }).matchedFilter.isEmpty)
      = true
  · simp only [_filter_append, h1, if_true]
    refine ⟨fun q hq2 => hP q hq2, hPE, fun hc => absurd rfl hc, fun _ => hExcludedProps⟩
  · simp only [Bool.not_eq_true] at h1
    by_cases h2 : (gf.apply_exclusion_filter
        && !((_filter_result (popFilteredLog (.obj kvs)) gf.exclude_filters).matchedFilter.isEmpty))
        = true
    · simp only [_filter_append, h1, Bool.false_eq_true, if_false, h2, if_true]
      refine ⟨fun q hq2 => hP q hq2, hPE, fun hc => absurd rfl hc, fun _ => hExcludedProps⟩
    · simp only [Bool.not_eq_true] at h2
      simp only [_filter_append, h1, Bool.false_eq_true, if_false, h2]
      refine ⟨fun q hq2 => hIncOther _ q hq2, hIncPE _, fun _ => ⟨_, hIncProps _,
        encodeFRStats_get_filter _ _⟩, fun hc => ?_⟩
      exact absurd hc (by simp)

/-- Witness for C6: the excluded record ends without a `filtered` entry; the
included record carries a fresh annotation naming the filter. -/
theorem c6_filter_log_frame_witness :
    ((_filter_append c1_gf (mkFilterStats "test filter".toList) []
        (.obj [("level", .str "error".toList)])).2.1.getD "properties"
        (.obj [])).get "filtered" = none
  ∧ (∃ ann, ((_filter_append w_gf_include (mkFilterStats "test filter".toList) []
        w_result).2.1.getD "properties" (.obj [])).get "filtered" = some ann
        ∧ ann.get "filter"
            = some (.str (mkFilterStats "test filter".toList).filter_description)) := by
  obtain ⟨_, _, _, hd⟩ := c6_filter_log_frame c1_gf (mkFilterStats "test filter".toList)
    [] [("level", JVal.str "error".toList)] (fun p hp => Option.noConfusion hp)
  obtain ⟨_, _, hc, _⟩ := c6_filter_log_frame w_gf_include
    (mkFilterStats "test filter".toList) [] [("ruleId", JVal.str "test-rule".toList)]
    (fun p hp => Option.noConfusion hp)
  refine ⟨hd rfl, ?_⟩
  have hcc := hc ?_
  · exact hcc
  · intro h
    have hlen : ((_filter_append w_gf_include (mkFilterStats "test filter".toList) []
        (JVal.obj [("ruleId", JVal.str "test-rule".toList)])).2.2).length = 1 := rfl
    rw [h] at hlen
    simp at hlen

/-- Length of a stripped string. -/
theorem pyStrip_length_le (s : PyStr) : (pyStrip s).length ≤ s.length := by
  calc ((s.dropWhile Char.isWhitespace).reverse.dropWhile Char.isWhitespace).reverse.length
      = ((s.dropWhile Char.isWhitespace).reverse.dropWhile Char.isWhitespace).length := by
        rw [List.length_reverse]
    _ ≤ (s.dropWhile Char.isWhitespace).reverse.length :=
        (List.dropWhile_suffix _).sublist.length_le
    _ = (s.dropWhile Char.isWhitespace).length := by rw [List.length_reverse]
    _ ≤ s.length := (List.dropWhile_suffix _).sublist.length_le

theorem takeWordsFit_length (limit : Nat) :
    ∀ (rest : List PyStr) (cur : PyStr), cur.length ≤ limit →
    (takeWordsFit limit cur rest).length ≤ limit := by
  intro rest
  induction rest with
  | nil => intro cur h; exact h
  | cons w ws ih =>
    intro cur h
    unfold takeWordsFit
    by_cases hf : (cur ++ ' ' :: w).length ≤ limit
    · rw [if_pos hf]
      exact ih _ hf
    · rw [if_neg hf]
      exact h

theorem pyShorten_length (t : PyStr) (w : Nat) (p : PyStr) (hp : p.length ≤ w) :
    (pyShorten t w p).length ≤ w := by
  unfold pyShorten
  by_cases hfit : (joinSp (pyWords t)).length ≤ w
  · rw [if_pos hfit]; exact hfit
  · rw [if_neg hfit]
    rcases hws : pyWords t with _ | ⟨w0, rest⟩
    · rw [hws] at hfit
      exact absurd (by simp [joinSp] : (joinSp ([] : List PyStr)).length ≤ w) hfit
    · dsimp only
      by_cases hw0 : w0.length + p.length ≤ w
      · rw [if_pos hw0]
        rw [List.length_append]
        have := takeWordsFit_length (w - p.length) rest w0 (by omega)
        omega
      · rw [if_neg hw0]
        exact le_trans (pyStrip_length_le p) hp

theorem fit_description_length (d : PyStr) (b pre : Int) (h10 : 10 ≤ pre)
    (hb : pre + 4 = b) : ((fit_description d b pre).length : Int) ≤ b := by
  have hcp : continuation_placeholder.length = 4 := rfl
  have hc : ((pre.toNat : Int)) = pre := Int.toNat_of_nonneg (by omega)
  unfold fit_description
  by_cases hlen : (d.length : Int) > b
  · rw [if_pos hlen]
    by_cases hsh : ((pyShorten d pre.toNat continuation_placeholder).length : Int)
        < pre - 40
    · rw [if_pos hsh]
      have ht : (List.take pre.toNat d).length = min pre.toNat d.length :=
        List.length_take _ _
      simp only [List.length_append, ht, hcp]
      have hmin : min pre.toNat d.length = pre.toNat := by omega
      omega
    · rw [if_neg hsh]
      have hs := pyShorten_length d pre.toNat continuation_placeholder (by omega)
      omega
  · rw [if_neg hlen]; omega

theorem contains_drop_false (desc : PyStr) (n : Nat) (c : Char)
    (h : desc.contains c = false) : (desc.drop n).contains c = false := by
  by_cases hd : (desc.drop n).contains c = true
  · exfalso
    simp at h hd
    exact h (List.mem_of_mem_drop hd)
  · simpa using hd

theorem clean_description_drop (code desc : PyStr)
    (hne : code ≠ [])
    (hnc : desc.contains '\n' = false)
    (hpre : code.isPrefixOf desc = true)
    (hpre2 : code.isPrefixOf (desc.drop code.length) = false) :
    clean_description code desc = clean_description code (desc.drop code.length) := by
  have hdne : desc.isEmpty = false := by
    cases desc with
    | nil =>
      cases code with
      | nil => exact absurd rfl hne
      | cons a l => simp [List.isPrefixOf] at hpre
    | cons a l => rfl
  have hnc2 : (desc.drop code.length).contains '\n' = false :=
    contains_drop_false desc code.length '\n' hnc
  unfold clean_description
  rw [hdne]
  simp only [Bool.not_false, if_true, hnc, Bool.false_eq_true, if_false, hpre, if_true]
  by_cases hdd : (desc.drop code.length).isEmpty
  · rw [hdd]
    simp only [Bool.not_true, Bool.false_eq_true, if_false]
    rw [List.isEmpty_iff] at hdd
    rw [hdd]
    rfl
  · simp only [Bool.not_eq_true] at hdd
    rw [hdd]
    simp only [Bool.not_false, if_true, hnc2, Bool.false_eq_true, if_false, hpre2]

theorem combine_congr_desc (code d1 d2 : PyStr)
    (h : clean_description (if !code.isEmpty then pyStrip code else code) d1
       = clean_description (if !code.isEmpty then pyStrip code else code) d2) :
    combine_code_and_description code d1 = combine_code_and_description code d2 := by
  unfold combine_code_and_description
  simp only [h]


/-- Claim C8 (amended): `combine_code_and_description` returns at most 120
characters whenever the stripped code is at most 120 characters long (for a
longer code the code itself is returned unshortened); and a description that
duplicates the code as a prefix is combined exactly as the description with
the duplicated prefix removed. -/
theorem c8_combine_budget_and_strip :
    (∀ code desc : PyStr, (pyStrip code).length ≤ 120 →
        (combine_code_and_description code desc).length ≤ 120)
  ∧ (∀ code desc : PyStr,
        code ≠ [] → pyStrip code = code → desc.contains '\n' = false →
        code.isPrefixOf desc = true →
        code.isPrefixOf (desc.drop code.length) = false →
        combine_code_and_description code desc
          = combine_code_and_description code (desc.drop code.length)) := by
  constructor
  · intro code desc h
    have hcp : continuation_placeholder.length = 4 := rfl
    unfold combine_code_and_description
    by_cases hc : code.isEmpty
    · simp only [hc, Bool.not_true, Bool.false_eq_true, if_false]
      have hpre : ¬((120 : Int) - (continuation_placeholder.length : Int) < 10) := by
        rw [hcp]; omega
      rw [if_neg hpre]
      by_cases hd : (clean_description code desc).isEmpty
      · simp only [hd, Bool.not_true, Bool.false_eq_true, if_false, if_true]
        simp [List.isEmpty_iff] at hc
        subst hc
        simp [pyStrip]
      · simp only [hd, Bool.not_false, if_true, hc, Bool.false_eq_true, if_false]
        have := fit_description_length (clean_description code desc) 120
          (120 - (continuation_placeholder.length : Int)) (by rw [hcp]; omega)
          (by rw [hcp]; omega)
        omega
    · simp only [hc, Bool.not_false, if_true]
      set c := pyStrip code with hcdef
      by_cases hpre : (120 - ((c.length : Int) + 1)
          - (continuation_placeholder.length : Int) < 10)
      · rw [if_pos hpre]
        exact h
      · rw [if_neg hpre]
        by_cases hd : (clean_description c desc).isEmpty
        · simp only [hd, Bool.not_true, Bool.false_eq_true, if_false]
          by_cases hcs : c.isEmpty
          · simp only [hcs, Bool.not_true, Bool.false_eq_true, if_false]
            decide
          · simp only [hcs, Bool.not_false, if_true]
            exact h
        · simp only [hd, Bool.not_false, if_true]
          have hf := fit_description_length (clean_description c desc)
            (120 - ((c.length : Int) + 1))
            (120 - ((c.length : Int) + 1) - (continuation_placeholder.length : Int))
            (by rw [hcp] at hpre ⊢; omega) (by rw [hcp]; omega)
          have hstrip : (pyStrip c).length ≤ c.length := pyStrip_length_le c
          by_cases hcs : c.isEmpty
          · simp only [hcs, Bool.not_true, Bool.false_eq_true, if_false]
            rw [hcp] at hpre
            omega
          · simp only [hcs, Bool.not_false, if_true]
            simp only [List.length_append, List.length_cons]
            rw [hcp] at hpre
            omega
  · intro code desc hne hstrip hnc hp hp2
    apply combine_congr_desc
    have hcne : code.isEmpty = false := by
      cases code with
      | nil => exact absurd rfl hne
      | cons a l => rfl
    rw [hcne]
    simp only [Bool.not_false, if_true, hstrip]
    exact clean_description_drop code desc hne hnc hp hp2

/-- Witness for C8: the bound applied at a short code, and the prefix
stripping applied at `code = CODE`, `desc = CODEbad`. -/
theorem c8_combine_budget_and_strip_witness :
    (combine_code_and_description "ABC123".toList "Some short description".toList).length
      ≤ 120
  ∧ combine_code_and_description "CODE".toList "CODEbad".toList
      = combine_code_and_description "CODE".toList
          ("CODEbad".toList.drop "CODE".toList.length) := by
  obtain ⟨h1, h2⟩ := c8_combine_budget_and_strip
  exact ⟨h1 "ABC123".toList "Some short description".toList (by decide),
    h2 "CODE".toList "CODEbad".toList (by decide) (by decide) (by decide)
      (by decide) (by decide)⟩

/-- Generic `lookup` unfolding with propositional key comparison. -/
theorem glookup_cons {α β : Type} [BEq α] [LawfulBEq α] [DecidableEq α]
    (k a : α) (b : β) (tl : List (α × β)) :
    List.lookup k ((a, b) :: tl) = if k = a then some b else List.lookup k tl := by
  by_cases h : k = a
  · simp [List.lookup, h]
  · have hb : (k == a) = false := beq_eq_false_iff_ne.mpr h
    simp [List.lookup, hb, h]

/-- Lookup after a pointwise update of one key's value. -/
theorem glookup_map_upd {α β : Type} [BEq α] [LawfulBEq α] [DecidableEq α]
    (k q : α) (f : β → β) :
    ∀ (m : List (α × β)),
    (m.map (fun kv => if kv.1 = k then (kv.1, f kv.2) else kv)).lookup q
      = if q = k then (m.lookup k).map f else m.lookup q := by
  intro m
  induction m with
  | nil => by_cases h : q = k <;> simp [h]
  | cons hd tl ih =>
    obtain ⟨a, b⟩ := hd
    simp only [List.map_cons]
    by_cases ha : a = k
    · subst ha
      rw [if_pos rfl]
      by_cases hq : q = a
      · subst hq
        simp [glookup_cons]
      · simp [glookup_cons, hq, ih]
    · rw [if_neg ha]
      have ha' : ¬k = a := fun h => ha h.symm
      by_cases hq : q = a
      · subst hq
        simp [glookup_cons, ha, ha', ih]
      · simp [glookup_cons, hq, ha', ih]

/-- Lookup after replacing one key with a fixed entry. -/
theorem glookup_map_replace {α β : Type} [BEq α] [LawfulBEq α] [DecidableEq α]
    (k q : α) (v : β) :
    ∀ (m : List (α × β)),
    (m.map (fun kv => if kv.1 = k then (k, v) else kv)).lookup q
      = if q = k then ((m.lookup k).map (fun _ => v)) else m.lookup q := by
  intro m
  induction m with
  | nil => by_cases h : q = k <;> simp [h]
  | cons hd tl ih =>
    obtain ⟨a, b⟩ := hd
    simp only [List.map_cons]
    by_cases ha : a = k
    · subst ha
      rw [if_pos rfl]
      by_cases hq : q = a
      · subst hq
        simp [glookup_cons]
      · simp [glookup_cons, hq, ih]
    · rw [if_neg ha]
      have ha' : ¬k = a := fun h => ha h.symm
      by_cases hq : q = a
      · subst hq
        simp [glookup_cons, ha, ha', ih]
      · simp [glookup_cons, hq, ha', ih]

/-- Lookup after appending a single fresh entry at the end. -/
theorem glookup_append_single {α β : Type} [BEq α] [LawfulBEq α] [DecidableEq α]
    (k q : α) (v : β) :
    ∀ (m : List (α × β)), m.lookup k = none →
    ((m ++ [(k, v)]).lookup q) = if q = k then some v else m.lookup q := by
  intro m
  induction m with
  | nil =>
    intro _
    by_cases h : q = k <;> simp [glookup_cons, h]
  | cons hd tl ih =>
    obtain ⟨a, b⟩ := hd
    intro h
    rw [glookup_cons] at h
    by_cases hka : k = a
    · rw [if_pos hka] at h; exact absurd h (by simp)
    · rw [if_neg hka] at h
      rw [List.cons_append, glookup_cons, glookup_cons]
      by_cases hq : q = a
      · rw [if_pos hq, if_pos hq, if_neg (fun he => hka (he.symm.trans hq))]
      · rw [if_neg hq, if_neg hq, ih h]

/-- Bridge from the Boolean `isPrefixOf` to the `<+:` relation. -/
theorem isPrefixOf_eq_true_iff (l₁ l₂ : List Char) :
    l₁.isPrefixOf l₂ = true ↔ l₁ <+: l₂ :=
  List.isPrefixOf_iff_prefix

/-- `lcp` is commutative. -/
theorem lcp_comm : ∀ (a b : PyStr), lcp a b = lcp b a
  | [], [] => rfl
  | [], _ :: _ => rfl
  | _ :: _, [] => rfl
  | a :: as, b :: bs => by
    by_cases h : a = b
    · subst h
      simp only [lcp, if_pos rfl, lcp_comm as bs]
    · have h' : ¬b = a := fun e => h e.symm
      simp only [lcp, if_neg h, if_neg h']

/-- `lcp a b` is a prefix of `a`. -/
theorem lcp_prefix_left : ∀ (a b : PyStr), lcp a b <+: a
  | [], [] => List.prefix_refl _
  | [], _ :: _ => List.prefix_refl _
  | _ :: _, [] => List.nil_prefix
  | a :: as, b :: bs => by
    by_cases h : a = b
    · simp only [lcp, if_pos h]
      exact List.cons_prefix_cons.mpr ⟨rfl, lcp_prefix_left as bs⟩
    · simp only [lcp, if_neg h]
      exact List.nil_prefix

/-- `lcp a b` is a prefix of `b`. -/
theorem lcp_prefix_right (a b : PyStr) : lcp a b <+: b :=
  lcp_comm a b ▸ lcp_prefix_left b a

/-- `lcp` with a list extending `a` returns `a`. -/
theorem lcp_eq_left : ∀ (a b : PyStr), a <+: b → lcp a b = a
  | [], _, _ => rfl
  | a :: as, b :: bs, h => by
    obtain ⟨hab, h'⟩ := List.cons_prefix_cons.mp h
    subst hab
    simp [lcp, lcp_eq_left as bs h']
  | a :: as, [], h => absurd h (by simp)

/-- A list extends `lcp a b` exactly when it extends both. -/
theorem prefix_lcp_iff : ∀ (s a b : PyStr), s <+: lcp a b ↔ s <+: a ∧ s <+: b
  | [], a, b => by simp
  | s :: ss, [], b => by
    constructor
    · intro h; exact absurd h (by simp [lcp])
    · intro ⟨h, _⟩; exact absurd h (by simp)
  | s :: ss, a :: as, [] => by
    constructor
    · intro h; exact absurd h (by simp [lcp])
    · intro ⟨_, h⟩; exact absurd h (by simp)
  | s :: ss, a :: as, b :: bs => by
    by_cases hab : a = b
    · subst hab
      simp only [lcp, if_pos rfl]
      constructor
      · intro h
        obtain ⟨he, h'⟩ := List.cons_prefix_cons.mp h
        subst he
        obtain ⟨h1, h2⟩ := (prefix_lcp_iff ss as bs).mp h'
        exact ⟨List.cons_prefix_cons.mpr ⟨rfl, h1⟩, List.cons_prefix_cons.mpr ⟨rfl, h2⟩⟩
      · intro ⟨h1, h2⟩
        obtain ⟨he, h1'⟩ := List.cons_prefix_cons.mp h1
        obtain ⟨_, h2'⟩ := List.cons_prefix_cons.mp h2
        subst he
        exact List.cons_prefix_cons.mpr ⟨rfl, (prefix_lcp_iff ss as bs).mpr ⟨h1', h2'⟩⟩
    · simp only [lcp, if_neg hab]
      constructor
      · intro h; exact absurd h (by simp)
      · intro ⟨h1, h2⟩
        obtain ⟨he1, _⟩ := List.cons_prefix_cons.mp h1
        obtain ⟨he2, _⟩ := List.cons_prefix_cons.mp h2
        exact absurd (he1.symm.trans he2) hab

/-- `lcp` is associative. -/
theorem lcp_assoc (a b c : PyStr) : lcp (lcp a b) c = lcp a (lcp b c) := by
  have h1 : lcp (lcp a b) c <+: lcp a (lcp b c) := by
    rw [prefix_lcp_iff, prefix_lcp_iff]
    exact ⟨(lcp_prefix_left (lcp a b) c).trans (lcp_prefix_left a b),
      (lcp_prefix_left (lcp a b) c).trans (lcp_prefix_right a b),
      lcp_prefix_right (lcp a b) c⟩
  have h2 : lcp a (lcp b c) <+: lcp (lcp a b) c := by
    rw [prefix_lcp_iff, prefix_lcp_iff]
    exact ⟨⟨lcp_prefix_left a (lcp b c),
      (lcp_prefix_right a (lcp b c)).trans (lcp_prefix_left b c)⟩,
      (lcp_prefix_right a (lcp b c)).trans (lcp_prefix_right b c)⟩
  exact h1.eq_of_length (Nat.le_antisymm h1.length_le h2.length_le)

/-- `lcp` of a list with itself. -/
theorem lcp_self (a : PyStr) : lcp a a = a :=
  lcp_eq_left a a (List.prefix_refl a)

/-- `firstMismatchPos` finds no mismatch exactly when one list extends the
other. -/
theorem firstMismatchPos_eq_none_iff :
    ∀ (s d : PyStr), firstMismatchPos s d = none ↔ (s <+: d ∨ d <+: s)
  | [], d => by simp [firstMismatchPos]
  | s :: ss, [] => by simp [firstMismatchPos]
  | s :: ss, d :: ds => by
    by_cases h : s = d
    · subst h
      have hunf : firstMismatchPos (s :: ss) (s :: ds)
          = (firstMismatchPos ss ds).map (· + 1) := by
        simp [firstMismatchPos]
      rw [hunf, Option.map_eq_none', firstMismatchPos_eq_none_iff ss ds]
      constructor
      · intro hc
        rcases hc with hc | hc
        · exact Or.inl (List.cons_prefix_cons.mpr ⟨rfl, hc⟩)
        · exact Or.inr (List.cons_prefix_cons.mpr ⟨rfl, hc⟩)
      · intro hc
        rcases hc with hc | hc
        · exact Or.inl (List.cons_prefix_cons.mp hc).2
        · exact Or.inr (List.cons_prefix_cons.mp hc).2
    · simp only [firstMismatchPos, if_neg h]
      constructor
      · intro hc; exact absurd hc (by simp)
      · intro hc
        rcases hc with hc | hc
        · exact absurd (List.cons_prefix_cons.mp hc).1 h
        · exact absurd (List.cons_prefix_cons.mp hc).1 (fun e => h e.symm)

/-- At a mismatch position `p`, the first `p` characters are the longest
common prefix, and `p` is inside both lists. -/
theorem firstMismatchPos_eq_some :
    ∀ (s d : PyStr) (p : Nat), firstMismatchPos s d = some p →
      s.take p = lcp s d ∧ p < s.length ∧ p < d.length
  | [], d, p, h => by simp [firstMismatchPos] at h
  | s :: ss, [], p, h => by simp [firstMismatchPos] at h
  | s :: ss, d :: ds, p, h => by
    by_cases he : s = d
    · subst he
      have hunf : firstMismatchPos (s :: ss) (s :: ds)
          = (firstMismatchPos ss ds).map (· + 1) := by
        simp [firstMismatchPos]
      rw [hunf, Option.map_eq_some'] at h
      obtain ⟨q, hq, hp⟩ := h
      obtain ⟨h1, h2, h3⟩ := firstMismatchPos_eq_some ss ds q hq
      subst hp
      refine ⟨?_, Nat.succ_lt_succ h2, Nat.succ_lt_succ h3⟩
      simp [lcp, h1]
    · simp only [firstMismatchPos, if_neg he, Option.some_inj] at h
      subst h
      exact ⟨by simp [lcp, if_neg he], Nat.zero_lt_succ _, Nat.zero_lt_succ _⟩

/-- `stemFold` over one more description. -/
theorem stemFold_append (s d : PyStr) (ds : List PyStr) :
    stemFold s (ds ++ [d]) = lcp (stemFold s ds) d := by
  simp [stemFold, List.foldl_append]

/-- The folded stem is a prefix of its seed. -/
theorem stemFold_prefix_init : ∀ (ds : List PyStr) (s : PyStr), stemFold s ds <+: s
  | [], s => List.prefix_refl s
  | d :: ds, s =>
    (stemFold_prefix_init ds (lcp s d)).trans (lcp_prefix_left s d)

/-- The folded stem is a prefix of every folded description. -/
theorem stemFold_prefix_mem : ∀ (ds : List PyStr) (s d : PyStr), d ∈ ds →
    stemFold s ds <+: d
  | [], _, _, h => absurd h (List.not_mem_nil _)
  | e :: ds, s, d, h => by
    rcases List.mem_cons.mp h with h | h
    · subst h
      exact (stemFold_prefix_init ds (lcp s d)).trans (lcp_prefix_right s d)
    · exact stemFold_prefix_mem ds (lcp s e) d h

/-- `UInt32 <` through `Nat`. -/
theorem uint32_lt_iff {a b : UInt32} : a < b ↔ a.toNat < b.toNat := by
  rw [UInt32.lt_def, BitVec.lt_def]
  rfl

/-- `strLe` is total. -/
theorem strLe_total : ∀ (a b : PyStr), strLe a b = true ∨ strLe b a = true
  | [], _ => Or.inl rfl
  | _ :: _, [] => Or.inr rfl
  | a :: as, b :: bs => by
    by_cases h : a = b
    · subst h
      rcases strLe_total as bs with h | h
      · exact Or.inl (by simp [strLe, h])
      · exact Or.inr (by simp [strLe, h])
    · have h' : ¬b = a := fun e => h e.symm
      rcases Nat.lt_trichotomy a.val.toNat b.val.toNat with h1 | h1 | h1
      · refine Or.inl ?_
        simp only [strLe, if_neg h]
        exact decide_eq_true (uint32_lt_iff.mpr h1)
      · exact absurd (Char.ext (UInt32.toNat.inj h1)) h
      · refine Or.inr ?_
        simp only [strLe, if_neg h']
        exact decide_eq_true (uint32_lt_iff.mpr h1)

/-- `strLe` is transitive. -/
theorem strLe_trans : ∀ (a b c : PyStr),
    strLe a b = true → strLe b c = true → strLe a c = true
  | [], _, _, _, _ => rfl
  | a :: as, [], c, h, _ => by simp [strLe] at h
  | a :: as, b :: bs, [], _, h => by simp [strLe] at h
  | a :: as, b :: bs, c :: cs, h1, h2 => by
    by_cases hab : a = b
    · subst hab
      by_cases hbc : a = c
      · subst hbc
        simp only [strLe, if_pos rfl] at h1 h2 ⊢
        exact strLe_trans as bs cs h1 h2
      · simp only [strLe, if_pos rfl] at h1
        simp only [strLe, if_neg hbc] at h2 ⊢
        exact h2
    · by_cases hbc : b = c
      · subst hbc
        simp only [strLe, if_neg hab] at h1 ⊢
        exact h1
      · have hac : a ≠ c := by
          intro he
          subst he
          simp only [strLe, if_neg hab] at h1
          simp only [strLe, if_neg hbc] at h2
          exact absurd (UInt32.lt_trans (of_decide_eq_true h1) (of_decide_eq_true h2))
            (UInt32.lt_irrefl _)
        simp only [strLe, if_neg hab] at h1
        simp only [strLe, if_neg hbc] at h2
        simp only [strLe, if_neg hac]
        exact decide_eq_true (UInt32.lt_trans (of_decide_eq_true h1) (of_decide_eq_true h2))

/-- `strLe` is antisymmetric. -/
theorem strLe_antisymm : ∀ (a b : PyStr),
    strLe a b = true → strLe b a = true → a = b
  | [], [], _, _ => rfl
  | [], b :: bs, _, h => by simp [strLe] at h
  | a :: as, [], h, _ => by simp [strLe] at h
  | a :: as, b :: bs, h1, h2 => by
    by_cases hab : a = b
    · subst hab
      simp only [strLe, if_pos rfl] at h1 h2
      rw [strLe_antisymm as bs h1 h2]
    · have h' : ¬b = a := fun e => hab e.symm
      simp only [strLe, if_neg hab] at h1
      simp only [strLe, if_neg h'] at h2
      exact absurd (UInt32.lt_trans (of_decide_eq_true h1) (of_decide_eq_true h2))
        (UInt32.lt_irrefl _)

/-- `insertByLe` only rearranges. -/
theorem insertByLe_perm (le : α → α → Bool) (a : α) :
    ∀ (l : List α), (insertByLe le a l).Perm (a :: l)
  | [] => List.Perm.refl _
  | b :: l => by
    simp only [insertByLe]
    by_cases h : le b a = true
    · rw [if_pos h]
      exact (List.Perm.cons b (insertByLe_perm le a l)).trans (List.Perm.swap a b l)
    · rw [if_neg h]

/-- `stableSortBy` only rearranges (fold form). -/
theorem stableSortBy_perm_aux (le : α → α → Bool) :
    ∀ (l acc : List α),
      (l.foldl (fun acc x => insertByLe le x acc) acc).Perm (l ++ acc)
  | [], acc => List.Perm.refl _
  | x :: l, acc => by
    simp only [List.foldl_cons, List.cons_append]
    exact (stableSortBy_perm_aux le l (insertByLe le x acc)).trans
      ((List.Perm.append_left l (insertByLe_perm le x acc)).trans
        List.perm_middle)

/-- `stableSortBy` only rearranges. -/
theorem stableSortBy_perm (le : α → α → Bool) (l : List α) :
    (stableSortBy le l).Perm l := by
  have h := stableSortBy_perm_aux le l []
  rw [List.append_nil] at h
  exact h

/-- `insertByLe` keeps the list pairwise-ordered. -/
theorem insertByLe_pairwise (le : α → α → Bool)
    (htot : ∀ a b, le a b = true ∨ le b a = true)
    (htrans : ∀ a b c, le a b = true → le b c = true → le a c = true)
    (a : α) :
    ∀ (l : List α), l.Pairwise (fun x y => le x y = true) →
      (insertByLe le a l).Pairwise (fun x y => le x y = true)
  | [], _ => by simp [insertByLe]
  | b :: l, hp => by
    simp only [insertByLe]
    obtain ⟨hb, hl⟩ := List.pairwise_cons.mp hp
    by_cases h : le b a = true
    · rw [if_pos h]
      refine List.pairwise_cons.mpr ⟨?_, insertByLe_pairwise le htot htrans a l hl⟩
      intro x hx
      rcases List.mem_cons.mp ((insertByLe_perm le a l).mem_iff.mp hx) with hx | hx
      · subst hx; exact h
      · exact hb x hx
    · rw [if_neg h]
      have hab : le a b = true := (htot a b).resolve_right (fun e => h e)
      refine List.pairwise_cons.mpr ⟨?_, hp⟩
      intro x hx
      rcases List.mem_cons.mp hx with hx | hx
      · subst hx; exact hab
      · exact htrans a b x hab (hb x hx)

/-- `stableSortBy` yields a pairwise-ordered list. -/
theorem stableSortBy_pairwise (le : α → α → Bool)
    (htot : ∀ a b, le a b = true ∨ le b a = true)
    (htrans : ∀ a b c, le a b = true → le b c = true → le a c = true)
    (l : List α) :
    (stableSortBy le l).Pairwise (fun x y => le x y = true) := by
  suffices h : ∀ (l acc : List α), acc.Pairwise (fun x y => le x y = true) →
      (l.foldl (fun acc x => insertByLe le x acc) acc).Pairwise
        (fun x y => le x y = true) by
    exact h l [] (by simp)
  intro l
  induction l with
  | nil => intro acc hacc; exact hacc
  | cons x l ih =>
    intro acc hacc
    exact ih (insertByLe le x acc) (insertByLe_pairwise le htot htrans x acc hacc)

/-- Two pairwise-ordered rearrangements of each other agree, given local
antisymmetry. -/
theorem pairwise_perm_eq (le : α → α → Bool) :
    ∀ (l₁ l₂ : List α), l₁.Perm l₂ →
      l₁.Pairwise (fun x y => le x y = true) →
      l₂.Pairwise (fun x y => le x y = true) →
      (∀ a ∈ l₁, ∀ b ∈ l₁, le a b = true → le b a = true → a = b) →
      l₁ = l₂
  | [], [], _, _, _, _ => rfl
  | [], b :: l₂, hp, _, _, _ => absurd hp.symm (by simp)
  | a :: l₁, [], hp, _, _, _ => absurd hp (by simp)
  | a :: l₁, b :: l₂, hp, hs₁, hs₂, hanti => by
    obtain ⟨ha₁, hl₁⟩ := List.pairwise_cons.mp hs₁
    obtain ⟨hb₂, hl₂⟩ := List.pairwise_cons.mp hs₂
    have hab : a = b := by
      by_cases he : a = b
      · exact he
      · have hamem : a ∈ b :: l₂ := hp.mem_iff.mp (List.mem_cons_self a l₁)
        have hbmem : b ∈ a :: l₁ := hp.mem_iff.mpr (List.mem_cons_self b l₂)
        have hba : b ∈ l₁ := by
          rcases List.mem_cons.mp hbmem with h | h
          · exact absurd h.symm he
          · exact h
        have hao : a ∈ l₂ := by
          rcases List.mem_cons.mp hamem with h | h
          · exact absurd h he
          · exact h
        exact hanti a (List.mem_cons_self a l₁) b hbmem (ha₁ b hba) (hb₂ a hao)
    subst hab
    have htl : l₁.Perm l₂ := hp.cons_inv
    rw [pairwise_perm_eq le l₁ l₂ htl hl₁ hl₂
      (fun x hx y hy => hanti x (List.mem_cons_of_mem a hx) y (List.mem_cons_of_mem a hy))]

/-- Lookup through a key-preserving value map. -/
theorem glookup_map_val {α β γ : Type} [BEq α] [LawfulBEq α] [DecidableEq α]
    (k : α) (f : β → γ) :
    ∀ (m : List (α × β)),
    (m.map (fun kv => (kv.1, f kv.2))).lookup k = (m.lookup k).map f := by
  intro m
  induction m with
  | nil => rfl
  | cons hd tl ih =>
    obtain ⟨a, b⟩ := hd
    by_cases h : k = a
    · simp [glookup_cons, h]
    · simp [glookup_cons, h, ih]

/-- A lookup succeeds exactly when the key occurs. -/
theorem glookup_isSome_iff_mem {α β : Type} [BEq α] [LawfulBEq α] [DecidableEq α]
    (k : α) :
    ∀ (m : List (α × β)), (m.lookup k).isSome = true ↔ k ∈ m.map Prod.fst := by
  intro m
  induction m with
  | nil => simp
  | cons hd tl ih =>
    obtain ⟨a, b⟩ := hd
    by_cases h : k = a
    · simp [glookup_cons, h]
    · simp [glookup_cons, h, ih]

/-- `getD []` passes through a map that fixes `[]`. -/
theorem option_map_getD_nil {β : Type} (o : Option (List β)) {γ : Type}
    (f : List β → List γ) (hf : f [] = []) :
    (o.map f).getD [] = f (o.getD []) := by
  cases o <;> simp [hf]

/-- `any` is stable under rearrangement. -/
theorem perm_any_eq {α : Type} {l₁ l₂ : List α} (h : l₁.Perm l₂) (p : α → Bool) :
    l₁.any p = l₂.any p := by
  by_cases h1 : l₁.any p = true
  · rw [h1]
    obtain ⟨x, hx, hpx⟩ := List.any_eq_true.mp h1
    exact (List.any_eq_true.mpr ⟨x, h.mem_iff.mp hx, hpx⟩).symm
  · have h2 : ¬l₂.any p = true := by
      intro h2
      obtain ⟨x, hx, hpx⟩ := List.any_eq_true.mp h2
      exact h1 (List.any_eq_true.mpr ⟨x, h.mem_iff.mpr hx, hpx⟩)
    rw [Bool.eq_false_iff.mpr h1, Bool.eq_false_iff.mpr h2]

/-- Adding records never sets the sorted flag or the grouping cache. -/
theorem foldl_add_record_state :
    ∀ (l : List NRecord) (rep : IssuesReport),
      rep.records_have_been_sorted = false → rep.sev_to_sorted_keys = none →
      (l.foldl IssuesReport.add_record rep).records_have_been_sorted = false ∧
      (l.foldl IssuesReport.add_record rep).sev_to_sorted_keys = none ∧
      (l.foldl IssuesReport.add_record rep).sev_to_records
        = l.foldl (fun m r => setdefaultAppend m r.Severity r) rep.sev_to_records
  | [], rep, hf, hk => ⟨hf, hk, rfl⟩
  | r :: l, rep, hf, hk => by
    have hstep : rep.add_record r =
        { rep with sev_to_records := setdefaultAppend rep.sev_to_records r.Severity r } := by
      simp [IssuesReport.add_record, hf]
    simp only [List.foldl_cons, hstep]
    exact foldl_add_record_state l _ hf hk

/-- Lookup after appending one element to one key's bucket. -/
theorem glookup_map_append {α β : Type} [BEq α] [LawfulBEq α] [DecidableEq α]
    (k q : α) (r : β) (m : List (α × List β)) :
    (m.map (fun kv => if kv.1 = k then (kv.1, kv.2 ++ [r]) else kv)).lookup q
      = if q = k then (m.lookup k).map (fun x => x ++ [r]) else m.lookup q :=
  glookup_map_upd k q (fun x => x ++ [r]) m

/-- The per-severity record list accumulated by `setdefaultAppend`. -/
theorem foldl_setdefaultAppend_lookup :
    ∀ (l : List NRecord) (m : List (PyStr × List NRecord)) (sev : PyStr),
      (((l.foldl (fun m r => setdefaultAppend m r.Severity r) m).lookup sev).getD [])
        = ((m.lookup sev).getD []) ++ l.filter (fun r => r.Severity = sev)
  | [], m, sev => by simp
  | r :: l, m, sev => by
    simp only [List.foldl_cons]
    rw [foldl_setdefaultAppend_lookup l _ sev]
    by_cases hsev : r.Severity = sev
    · subst hsev
      by_cases hm : (m.lookup r.Severity).isSome
      · obtain ⟨v, hv⟩ := Option.isSome_iff_exists.mp hm
        rw [show setdefaultAppend m r.Severity r
            = m.map (fun kv => if kv.1 = r.Severity then (kv.1, kv.2 ++ [r]) else kv) from by
          simp [setdefaultAppend, hm]]
        rw [glookup_map_append, if_pos rfl, hv]
        simp [hv, List.filter_cons]
      · have hnone : m.lookup r.Severity = none := Option.not_isSome_iff_eq_none.mp hm
        rw [show setdefaultAppend m r.Severity r = m ++ [(r.Severity, [r])] from by
          simp [setdefaultAppend, hnone]]
        rw [glookup_append_single _ _ _ m hnone, if_pos rfl, hnone]
        simp [List.filter_cons]
    · have hfilter : List.filter (fun r' => decide (r'.Severity = sev)) (r :: l)
          = List.filter (fun r' => decide (r'.Severity = sev)) l := by
        simp [List.filter_cons, hsev]
      rw [hfilter]
      by_cases hm : (m.lookup r.Severity).isSome
      · rw [show setdefaultAppend m r.Severity r
            = m.map (fun kv => if kv.1 = r.Severity then (kv.1, kv.2 ++ [r]) else kv) from by
          simp [setdefaultAppend, hm]]
        rw [glookup_map_append, if_neg (fun e => hsev e.symm)]
      · have hnone : m.lookup r.Severity = none := Option.not_isSome_iff_eq_none.mp hm
        rw [show setdefaultAppend m r.Severity r = m ++ [(r.Severity, [r])] from by
          simp [setdefaultAppend, hnone]]
        rw [glookup_append_single _ _ _ m hnone, if_neg (fun e => hsev e.symm)]

/-- The initial severity table holds only empty buckets. -/
theorem init_lookup_nil (sev : PyStr) :
    (((IssuesReport.init.sev_to_records).lookup sev).getD []) = [] := by
  have h : ∀ (ss : List PyStr),
      ((((ss.map (fun s => (s, ([] : List NRecord))))).lookup sev).getD []) = [] := by
    intro ss
    induction ss with
    | nil => rfl
    | cons s ss ih =>
      simp only [List.map_cons]
      rw [glookup_cons]
      by_cases h : sev = s
      · simp [h]
      · simp only [if_neg h]; exact ih
  exact h _

/-- Grouping an empty bucket yields an empty dict. -/
theorem sortedGroupIssues_nil : sortedGroupIssues [] = [] := rfl

/-- The grouped-and-sorted per-severity dict a fresh report serves: group and
sort exactly the records of that severity, in insertion order. -/
theorem grouped_eval (l : List NRecord) (sev : PyStr) :
    ((buildReport l).get_issues_grouped_by_type_for_severity sev).1
      = sortedGroupIssues (l.filter (fun r => r.Severity = sev)) := by
  obtain ⟨hf, hk, hr⟩ := foldl_add_record_state l IssuesReport.init rfl rfl
  have hsort : (buildReport l).sort_record_lists.sev_to_sorted_keys
      = some ((buildReport l).sev_to_records.map
          (fun kv => (kv.1, sortedGroupIssues kv.2))) := by
    simp only [IssuesReport.sort_record_lists, IssuesReport.group_records_by_key,
      buildReport] at hk ⊢
    rw [hk]
    simp only [Option.isNone_none, if_true, Option.getD_some, List.map_map]
    rfl
  have hget : ((buildReport l).get_issues_grouped_by_type_for_severity sev).1
      = (((buildReport l).sort_record_lists.sev_to_sorted_keys.getD []).lookup sev).getD [] := by
    simp only [IssuesReport.get_issues_grouped_by_type_for_severity, buildReport] at hf ⊢
    rw [hf]
    rfl
  rw [hget, hsort, Option.getD_some, glookup_map_val, option_map_getD_nil _ _ rfl]
  rw [show (buildReport l).sev_to_records
      = l.foldl (fun m r => setdefaultAppend m r.Severity r) IssuesReport.init.sev_to_records
    from hr]
  rw [foldl_setdefaultAppend_lookup, init_lookup_nil, List.nil_append]

/-- The per-code trace of the grouping fold. -/
theorem foldl_groupStep_lookup :
    ∀ (issues : List NRecord) (m : List (PyStr × KeyCount)) (c : PyStr),
      (issues.foldl groupStep m).lookup c
        = kcFold c (m.lookup c) (issues.filter (fun r => r.Code = c))
  | [], m, c => by
    cases h : m.lookup c <;> simp [h, kcFold]
  | r :: issues, m, c => by
    simp only [List.foldl_cons]
    rw [foldl_groupStep_lookup issues (groupStep m r) c]
    cases hl : m.lookup r.Code with
    | none =>
      rw [show groupStep m r = m ++ [(r.Code, kcInit r)] from by
        simp [groupStep, hl]]
      rw [glookup_append_single _ _ _ m hl]
      by_cases hc : c = r.Code
      · subst hc
        rw [if_pos rfl]
        simp [List.filter_cons, hl, kcFold]
      · rw [if_neg hc]
        have h' : ¬r.Code = c := fun e => hc e.symm
        simp [List.filter_cons, h']
    | some kc =>
      rw [show groupStep m r
          = m.map (fun kv => if kv.1 = r.Code then (r.Code, kcStep r.Code kc r) else kv) from by
        simp [groupStep, hl]]
      rw [glookup_map_replace]
      by_cases hc : c = r.Code
      · subst hc
        rw [if_pos rfl, hl]
        simp [List.filter_cons, kcFold]
      · rw [if_neg hc]
        have h' : ¬r.Code = c := fun e => hc e.symm
        simp [List.filter_cons, h']

/-- The grouping trace never forgets a seen code. -/
theorem kcFold_isSome (c : PyStr) :
    ∀ (gs : List NRecord) (kc : KeyCount), (kcFold c (some kc) gs).isSome = true
  | [], _ => rfl
  | g :: gs, kc => kcFold_isSome c gs (kcStep c kc g)

/-- A code has an entry exactly when one of its records was processed. -/
theorem groupStep_lookup_isSome_iff (issues : List NRecord) (c : PyStr) :
    (((issues.foldl groupStep []).lookup c).isSome = true)
      ↔ ∃ r ∈ issues, r.Code = c := by
  rw [foldl_groupStep_lookup issues [] c]
  show (kcFold c none (issues.filter (fun r => r.Code = c))).isSome = true ↔ _
  cases hf : issues.filter (fun r => r.Code = c) with
  | nil =>
    simp only [kcFold, Option.isSome_none, Bool.false_eq_true, false_iff]
    intro ⟨r, hr, hc⟩
    have : r ∈ issues.filter (fun r => r.Code = c) :=
      List.mem_filter.mpr ⟨hr, decide_eq_true hc⟩
    rw [hf] at this
    exact absurd this (List.not_mem_nil r)
  | cons g gs =>
    simp only [kcFold, kcFold_isSome, true_iff]
    have hg : g ∈ issues.filter (fun r => r.Code = c) := by rw [hf]; exact List.mem_cons_self g gs
    obtain ⟨hgi, hgc⟩ := List.mem_filter.mp hg
    exact ⟨g, hgi, of_decide_eq_true hgc⟩

/-- Bucket contents after the append fold. -/
theorem foldl_appendAtKey_lookup (g : NRecord → PyStr) :
    ∀ (issues : List NRecord) (acc : List (PyStr × List NRecord)) (k : PyStr),
      (issues.foldl (fun acc r => appendAtKey acc (g r) r) acc).lookup k
        = (acc.lookup k).map (fun v => v ++ issues.filter (fun r => g r = k))
  | [], acc, k => by
    cases h : acc.lookup k <;> simp [h]
  | r :: issues, acc, k => by
    simp only [List.foldl_cons]
    rw [foldl_appendAtKey_lookup g issues (appendAtKey acc (g r) r) k]
    rw [show appendAtKey acc (g r) r
        = acc.map (fun kv => if kv.1 = g r then (kv.1, kv.2 ++ [r]) else kv) from rfl]
    rw [glookup_map_append]
    by_cases hk : k = g r
    · subst hk
      rw [if_pos rfl]
      have hfil : List.filter (fun r' => decide (g r' = g r)) (r :: issues)
          = r :: List.filter (fun r' => decide (g r' = g r)) issues := by
        simp [List.filter_cons]
      rw [hfil]
      cases acc.lookup (g r) <;> simp
    · rw [if_neg hk]
      have h' : ¬g r = k := fun e => hk e.symm
      have hfil : List.filter (fun r' => decide (g r' = k)) (r :: issues)
          = List.filter (fun r' => decide (g r' = k)) issues := by
        simp [List.filter_cons, h']
      rw [hfil]

/-- Key set after the dict-comprehension fold. -/
theorem foldl_insertKeyIfAbsent_lookup (h : PyStr → PyStr) :
    ∀ (codes : List PyStr) (acc : List (PyStr × List NRecord)) (k : PyStr),
      (codes.foldl (fun acc c => insertKeyIfAbsent acc (h c)) acc).lookup k
        = ((acc.lookup k).or
            (if codes.any (fun c => h c = k) then some [] else none))
  | [], acc, k => by
    cases h : acc.lookup k <;> simp [h]
  | c :: codes, acc, k => by
    simp only [List.foldl_cons]
    rw [foldl_insertKeyIfAbsent_lookup h codes (insertKeyIfAbsent acc (h c)) k]
    by_cases hs : (acc.lookup (h c)).isSome
    · rw [show insertKeyIfAbsent acc (h c) = acc from by simp [insertKeyIfAbsent, hs]]
      by_cases hk : h c = k
      · subst hk
        obtain ⟨v, hv⟩ := Option.isSome_iff_exists.mp hs
        rw [hv]
        simp
      · have hany : ((c :: codes).any (fun c => h c = k))
            = (codes.any (fun c => h c = k)) := by
          simp [List.any_cons, hk]
        rw [hany]
    · have hnone : acc.lookup (h c) = none := Option.not_isSome_iff_eq_none.mp hs
      rw [show insertKeyIfAbsent acc (h c) = acc ++ [(h c, [])] from by
        simp [insertKeyIfAbsent, hs]]
      rw [glookup_append_single _ _ _ acc hnone]
      by_cases hk : k = h c
      · subst hk
        rw [if_pos rfl, hnone]
        have hany : ((c :: codes).any (fun c' => h c' = h c)) = true := by
          simp [List.any_cons]
        rw [hany, if_pos rfl]
        simp
      · rw [if_neg hk]
        have h' : ¬h c = k := fun e => hk e.symm
        have hany : ((c :: codes).any (fun c' => h c' = k))
            = (codes.any (fun c' => h c' = k)) := by
          simp [List.any_cons, h']
        rw [hany]

/-- Boolean extensionality through the corresponding propositions. -/
theorem bool_eq_of_iff {a b : Bool} (h : a = true ↔ b = true) : a = b := by
  cases a <;> cases b <;> simp_all

/-- The bucket a grouped severity dict serves for a key: all records whose
code maps to that key, in insertion order. -/
theorem groupIssues_lookup (issues : List NRecord) (k : PyStr) :
    (groupIssues issues).lookup k
      = (if issues.any (fun r => keyForCode (issues.foldl groupStep []) r.Code = k)
         then some (issues.filter
            (fun r => keyForCode (issues.foldl groupStep []) r.Code = k))
         else none) := by
  rw [show groupIssues issues
      = issues.foldl
          (fun acc r => appendAtKey acc (keyForCode (issues.foldl groupStep []) r.Code) r)
          ((stableSortBy
              (fun c c' =>
                (((issues.foldl groupStep []).lookup c').map KeyCount.count).getD 0
                  ≤ (((issues.foldl groupStep []).lookup c).map KeyCount.count).getD 0)
              ((issues.foldl groupStep []).map Prod.fst)).foldl
            (fun acc c => insertKeyIfAbsent acc (keyForCode (issues.foldl groupStep []) c)) [])
    from rfl]
  rw [foldl_appendAtKey_lookup]
  rw [foldl_insertKeyIfAbsent_lookup]
  rw [show (List.lookup k ([] : List (PyStr × List NRecord))) = none from rfl]
  rw [show ∀ (o : Option (List NRecord)), Option.or none o = o from fun o => by cases o <;> rfl]
  have hany : ((stableSortBy
        (fun c c' =>
          (((issues.foldl groupStep []).lookup c').map KeyCount.count).getD 0
            ≤ (((issues.foldl groupStep []).lookup c).map KeyCount.count).getD 0)
        ((issues.foldl groupStep []).map Prod.fst)).any
          (fun c => keyForCode (issues.foldl groupStep []) c = k))
      = issues.any (fun r => keyForCode (issues.foldl groupStep []) r.Code = k) := by
    rw [perm_any_eq (stableSortBy_perm _ _) _]
    apply bool_eq_of_iff
    rw [List.any_eq_true, List.any_eq_true]
    constructor
    · intro ⟨c, hc, hp⟩
      obtain ⟨r, hr, hrc⟩ := (groupStep_lookup_isSome_iff issues c).mp
        ((glookup_isSome_iff_mem c _).mpr hc)
      refine ⟨r, hr, ?_⟩
      rw [hrc]
      exact hp
    · intro ⟨r, hr, hp⟩
      have hsome : (((issues.foldl groupStep []).lookup r.Code).isSome = true) :=
        (groupStep_lookup_isSome_iff issues r.Code).mpr ⟨r, hr, rfl⟩
      exact ⟨r.Code, (glookup_isSome_iff_mem r.Code _).mp hsome, hp⟩
  rw [hany]
  by_cases hc : issues.any (fun r => keyForCode (issues.foldl groupStep []) r.Code = k) = true
  · rw [hc, if_pos rfl, if_pos rfl]
    simp
  · rw [Bool.eq_false_iff.mpr hc]
    simp

/-- One grouping step from the closed form, under local prefix-freeness of
the new description against the first one. -/
theorem kcStep_spec (c d₀ : PyStr) (ds : List PyStr) (n : Nat) (g : NRecord)
    (hpd : g.Description <+: d₀ → g.Description = d₀) :
    kcStep c (kcSpec c d₀ ds n) g = kcSpec c d₀ (ds ++ [g.Description]) (n + 1) := by
  cases hpre : (stemFold d₀ ds).isPrefixOf g.Description with
  | true =>
    have hstem' : stemFold d₀ (ds ++ [g.Description]) = stemFold d₀ ds := by
      rw [stemFold_append]
      exact lcp_eq_left _ _ ((isPrefixOf_eq_true_iff _ _).mp hpre)
    simp [kcStep, kcSpec, hpre, hstem']
  | false =>
    cases hmp : firstMismatchPos (stemFold d₀ ds) g.Description with
    | none =>
      rcases (firstMismatchPos_eq_none_iff _ _).mp hmp with h | h
      · rw [(isPrefixOf_eq_true_iff _ _).mpr h] at hpre
        exact absurd hpre (by simp)
      · have hdd0 : g.Description = d₀ := hpd (h.trans (stemFold_prefix_init ds d₀))
        have hsd : stemFold d₀ ds <+: g.Description := by
          rw [hdd0]
          exact stemFold_prefix_init ds d₀
        rw [(isPrefixOf_eq_true_iff _ _).mpr hsd] at hpre
        exact absurd hpre (by simp)
    | some p =>
      obtain ⟨htake, hlt, _⟩ := firstMismatchPos_eq_some _ _ p hmp
      have hstem' : stemFold d₀ (ds ++ [g.Description]) = (stemFold d₀ ds).take p := by
        rw [stemFold_append, htake]
      have hne : ¬((stemFold d₀ ds).take p = d₀) := by
        intro he
        have h1 : ((stemFold d₀ ds).take p).length = p := by
          rw [List.length_take]
          exact Nat.min_eq_left (Nat.le_of_lt hlt)
        have h2 : (stemFold d₀ ds).length ≤ d₀.length :=
          (stemFold_prefix_init ds d₀).length_le
        rw [he] at h1
        omega
      simp [kcStep, kcSpec, hpre, hmp, hstem', hne]

/-- The closed form of the grouping trace, continued from a spec state. -/
theorem kcFold_spec (c d₀ : PyStr) :
    ∀ (gs : List NRecord) (ds : List PyStr) (n : Nat),
      (∀ g ∈ gs, g.Description <+: d₀ → g.Description = d₀) →
      kcFold c (some (kcSpec c d₀ ds n)) gs
        = some (kcSpec c d₀ (ds ++ gs.map NRecord.Description) (n + gs.length))
  | [], ds, n, _ => by simp [kcFold]
  | g :: gs, ds, n, hpd => by
    show kcFold c (some (kcStep c (kcSpec c d₀ ds n) g)) gs = _
    rw [kcStep_spec c d₀ ds n g (hpd g (List.mem_cons_self g gs))]
    rw [kcFold_spec c d₀ gs (ds ++ [g.Description]) (n + 1)
      (fun g' hg' => hpd g' (List.mem_cons_of_mem g hg'))]
    rw [List.append_assoc, List.singleton_append, List.map_cons, List.length_cons,
      show n + 1 + gs.length = n + (gs.length + 1) from by omega]

/-- The closed form of a whole code group's entry. -/
theorem kcFold_closed (c : PyStr) (g₀ : NRecord) (gs : List NRecord)
    (hc : g₀.Code = c)
    (hpd : ∀ g ∈ g₀ :: gs,
      g.Description <+: g₀.Description → g.Description = g₀.Description) :
    kcFold c none (g₀ :: gs)
      = some (kcSpec c g₀.Description (gs.map NRecord.Description) (1 + gs.length)) := by
  show kcFold c (some (kcInit g₀)) gs = _
  have hinit : kcInit g₀ = kcSpec c g₀.Description [] 1 := by
    simp [kcInit, kcSpec, stemFold, combine_record_code_and_description, hc]
  rw [hinit,
    kcFold_spec c g₀.Description gs [] 1 (fun g hg => hpd g (List.mem_cons_of_mem g₀ hg))]
  simp

/-- Folding `olcpStep` from a seen stem is folding `lcp`. -/
theorem foldl_olcpStep_some : ∀ (ds : List PyStr) (s : PyStr),
    ds.foldl olcpStep (some s) = some (stemFold s ds)
  | [], _ => rfl
  | d :: ds, s => foldl_olcpStep_some ds (lcp s d)

/-- `lcpAll` of a nonempty list is the stem folded from its head. -/
theorem lcpAll_cons (d : PyStr) (ds : List PyStr) :
    lcpAll (d :: ds) = some (stemFold d ds) :=
  foldl_olcpStep_some ds d

/-- `lcpAll` is stable under rearrangement. -/
theorem lcpAll_perm {l₁ l₂ : List PyStr} (h : l₁.Perm l₂) : lcpAll l₁ = lcpAll l₂ :=
  h.foldl_eq'
    (fun x _ y _ z => by
      cases z with
      | none => simp [olcpStep, lcp_comm x y]
      | some s => simp [olcpStep, lcp_assoc, lcp_comm x y])
    none

/-- Prefix-freeness follows membership. -/
theorem prefixFree_perm {l₁ l₂ : List PyStr} (h : l₁.Perm l₂)
    (hpf : PrefixFree l₁) : PrefixFree l₂ :=
  fun a ha b hb hab => hpf a (h.mem_iff.mpr ha) b (h.mem_iff.mpr hb) hab

/-- Under prefix-freeness of a code's descriptions, the issue-type key the
grouping fold assigns to the code does not depend on the order of the
records. -/
theorem keyForCode_perm_eq (issues₁ issues₂ : List NRecord) (c : PyStr)
    (hperm : issues₁.Perm issues₂)
    (hpf : PrefixFree (descsFor issues₁ c)) :
    keyForCode (issues₁.foldl groupStep []) c
      = keyForCode (issues₂.foldl groupStep []) c := by
  have hpermf : (issues₁.filter (fun r => r.Code = c)).Perm
      (issues₂.filter (fun r => r.Code = c)) := hperm.filter _
  have h1 : (issues₁.foldl groupStep []).lookup c
      = kcFold c none (issues₁.filter (fun r => r.Code = c)) := by
    rw [foldl_groupStep_lookup]
    rfl
  have h2 : (issues₂.foldl groupStep []).lookup c
      = kcFold c none (issues₂.filter (fun r => r.Code = c)) := by
    rw [foldl_groupStep_lookup]
    rfl
  cases hg1 : issues₁.filter (fun r => r.Code = c) with
  | nil =>
    have hg2 : issues₂.filter (fun r => r.Code = c) = [] := by
      rw [hg1] at hpermf
      exact hpermf.symm.eq_nil
    simp only [keyForCode, h1, h2, hg1, hg2, kcFold]
  | cons g₀ gs =>
    cases hg2 : issues₂.filter (fun r => r.Code = c) with
    | nil =>
      rw [hg1, hg2] at hpermf
      exact absurd hpermf (by simp)
    | cons h₀ hs =>
      rw [hg1, hg2] at hpermf
      have hdescs : ((g₀ :: gs).map NRecord.Description).Perm
          ((h₀ :: hs).map NRecord.Description) := hpermf.map _
      have hpf1 : PrefixFree ((g₀ :: gs).map NRecord.Description) := by
        have : descsFor issues₁ c = (g₀ :: gs).map NRecord.Description := by
          rw [show descsFor issues₁ c
              = (issues₁.filter (fun r => r.Code = c)).map NRecord.Description from rfl, hg1]
        rw [this] at hpf
        exact hpf
      have hcg : g₀.Code = c := by
        have := List.mem_filter.mp (hg1 ▸ List.mem_cons_self g₀ gs)
        exact of_decide_eq_true this.2
      have hch : h₀.Code = c := by
        have := List.mem_filter.mp (hg2 ▸ List.mem_cons_self h₀ hs)
        exact of_decide_eq_true this.2
      have hpd1 : ∀ g ∈ g₀ :: gs,
          g.Description <+: g₀.Description → g.Description = g₀.Description := by
        intro g hg hpre
        exact hpf1 g.Description (List.mem_map_of_mem _ hg) g₀.Description
          (List.mem_map_of_mem _ (List.mem_cons_self g₀ gs))
          ((isPrefixOf_eq_true_iff _ _).mpr hpre)
      have hpd2 : ∀ g ∈ h₀ :: hs,
          g.Description <+: h₀.Description → g.Description = h₀.Description := by
        intro g hg hpre
        exact prefixFree_perm hdescs hpf1 g.Description (List.mem_map_of_mem _ hg)
          h₀.Description (List.mem_map_of_mem _ (List.mem_cons_self h₀ hs))
          ((isPrefixOf_eq_true_iff _ _).mpr hpre)
      have hstem : stemFold g₀.Description (gs.map NRecord.Description)
          = stemFold h₀.Description (hs.map NRecord.Description) := by
        have := lcpAll_perm hdescs
        rw [List.map_cons, List.map_cons, lcpAll_cons, lcpAll_cons] at this
        exact Option.some.inj this
      have hmem21 : h₀.Description ∈ (g₀ :: gs).map NRecord.Description := by
        refine hdescs.mem_iff.mpr ?_
        rw [List.map_cons]
        exact List.mem_cons_self _ _
      simp only [keyForCode, h1, h2, hg1, hg2,
        kcFold_closed c g₀ gs hcg hpd1, kcFold_closed c h₀ hs hch hpd2]
      simp only [kcSpec]
      by_cases he1 : stemFold g₀.Description (gs.map NRecord.Description) = g₀.Description
      · have hd12 : g₀.Description = h₀.Description := by
          apply hpf1 g₀.Description (List.mem_map_of_mem _ (List.mem_cons_self g₀ gs))
            h₀.Description hmem21
          apply (isPrefixOf_eq_true_iff _ _).mpr
          rw [← he1, hstem]
          exact stemFold_prefix_init _ _
        have he2 : stemFold h₀.Description (hs.map NRecord.Description) = h₀.Description := by
          rw [← hstem, he1, hd12]
        rw [if_pos he1, if_pos he2, hd12]
      · have he2 : ¬(stemFold h₀.Description (hs.map NRecord.Description) = h₀.Description) := by
          intro he2
          have hd21 : h₀.Description = g₀.Description := by
            apply hpf1 h₀.Description hmem21 g₀.Description
              (List.mem_map_of_mem _ (List.mem_cons_self g₀ gs))
            apply (isPrefixOf_eq_true_iff _ _).mpr
            rw [← he2, ← hstem]
            exact stemFold_prefix_init _ _
          apply he1
          rw [hstem, ← hd21]
          exact he2
        rw [if_neg he1, if_neg he2, hstem]

/-- Pairwise prefix-freeness specializes to each severity's per-code
description list. -/
theorem descPrefixFree_descsFor (l : List NRecord) (hpf : DescPrefixFree l)
    (sev c : PyStr) :
    PrefixFree (descsFor (l.filter (fun r => r.Severity = sev)) c) := by
  intro a ha b hb hab
  obtain ⟨ra, hra, hda⟩ := List.mem_map.mp ha
  obtain ⟨rb, hrb, hdb⟩ := List.mem_map.mp hb
  obtain ⟨hra1, hrac⟩ := List.mem_filter.mp hra
  obtain ⟨hrb1, hrbc⟩ := List.mem_filter.mp hrb
  obtain ⟨hral, hras⟩ := List.mem_filter.mp hra1
  obtain ⟨hrbl, hrbs⟩ := List.mem_filter.mp hrb1
  subst hda hdb
  exact hpf ra hral rb hrbl
    ((of_decide_eq_true hras).trans (of_decide_eq_true hrbs).symm)
    ((of_decide_eq_true hrac).trans (of_decide_eq_true hrbc).symm)
    hab

/-- C5 (corrected): in general the grouped output depends on insertion order
(see the counterexample); but when, within each severity, no record's
description is a strict prefix of a same-code record's description, and the
sort keys separate the records, any two insertion orders of the same
records give reports that serve, for every severity, the same issue-type
keys mapped to the same sorted record lists. -/
theorem c5_grouping_order_independent (l₁ l₂ : List NRecord)
    (hperm : l₁.Perm l₂)
    (hpf : DescPrefixFree l₁)
    (hinj : SortKeyInj l₁)
    (sev k : PyStr) :
    (((buildReport l₁).get_issues_grouped_by_type_for_severity sev).1.lookup k)
      = (((buildReport l₂).get_issues_grouped_by_type_for_severity sev).1.lookup k) := by
  rw [grouped_eval l₁ sev, grouped_eval l₂ sev]
  have hpermI : (l₁.filter (fun r => r.Severity = sev)).Perm
      (l₂.filter (fun r => r.Severity = sev)) := hperm.filter _
  have hkeyC : ∀ c,
      keyForCode ((l₁.filter (fun r => r.Severity = sev)).foldl groupStep []) c
        = keyForCode ((l₂.filter (fun r => r.Severity = sev)).foldl groupStep []) c :=
    fun c => keyForCode_perm_eq _ _ c hpermI (descPrefixFree_descsFor l₁ hpf sev c)
  rw [show sortedGroupIssues (l₁.filter (fun r => r.Severity = sev))
      = (groupIssues (l₁.filter (fun r => r.Severity = sev))).map
          (fun kv => (kv.1, stableSortBy recordKeyLe kv.2)) from rfl]
  rw [show sortedGroupIssues (l₂.filter (fun r => r.Severity = sev))
      = (groupIssues (l₂.filter (fun r => r.Severity = sev))).map
          (fun kv => (kv.1, stableSortBy recordKeyLe kv.2)) from rfl]
  rw [glookup_map_val k (stableSortBy recordKeyLe),
    glookup_map_val k (stableSortBy recordKeyLe)]
  rw [groupIssues_lookup, groupIssues_lookup]
  have hfun : (fun r : NRecord =>
        decide (keyForCode ((l₁.filter (fun r => r.Severity = sev)).foldl groupStep [])
          r.Code = k))
      = (fun r : NRecord =>
        decide (keyForCode ((l₂.filter (fun r => r.Severity = sev)).foldl groupStep [])
          r.Code = k)) :=
    funext fun r => by rw [hkeyC r.Code]
  rw [hfun, perm_any_eq hpermI]
  have hbucket : ((l₁.filter (fun r => r.Severity = sev)).filter
        (fun r => keyForCode ((l₂.filter (fun r => r.Severity = sev)).foldl groupStep [])
          r.Code = k)).Perm
      ((l₂.filter (fun r => r.Severity = sev)).filter
        (fun r => keyForCode ((l₂.filter (fun r => r.Severity = sev)).foldl groupStep [])
          r.Code = k)) := hpermI.filter _
  by_cases hc2 : ((l₂.filter (fun r => r.Severity = sev)).any
      (fun r => keyForCode ((l₂.filter (fun r => r.Severity = sev)).foldl groupStep [])
        r.Code = k)) = true
  · rw [if_pos hc2, if_pos hc2]
    rw [Option.map_some', Option.map_some']
    apply congrArg
    have htot : ∀ a b : NRecord, recordKeyLe a b = true ∨ recordKeyLe b a = true :=
      fun a b => strLe_total _ _
    have htrans : ∀ a b c : NRecord,
        recordKeyLe a b = true → recordKeyLe b c = true → recordKeyLe a c = true :=
      fun a b c h1 h2 => strLe_trans _ _ _ h1 h2
    apply pairwise_perm_eq recordKeyLe _ _
      ((stableSortBy_perm _ _).trans (hbucket.trans (stableSortBy_perm _ _).symm))
      (stableSortBy_pairwise _ htot htrans _)
      (stableSortBy_pairwise _ htot htrans _)
    intro a ha b hb hab hba
    have hamem : a ∈ l₁ := by
      have h1 := (stableSortBy_perm recordKeyLe _).mem_iff.mp ha
      have h2 := (List.mem_filter.mp h1).1
      exact (List.mem_filter.mp h2).1
    have hbmem : b ∈ l₁ := by
      have h1 := (stableSortBy_perm recordKeyLe _).mem_iff.mp hb
      have h2 := (List.mem_filter.mp h1).1
      exact (List.mem_filter.mp h2).1
    exact hinj a hamem b hbmem (strLe_antisymm _ _ hab hba)
  · rw [if_neg hc2, if_neg hc2]

/-- C5 witness: the corrected theorem applied to two concrete insertion
orders of the same two records. -/
theorem c5_grouping_order_independent_witness :
    ([c7_r_a, c7_r_b].Perm [c7_r_b, c7_r_a] ∧ DescPrefixFree [c7_r_a, c7_r_b]
       ∧ SortKeyInj [c7_r_a, c7_r_b]) ∧
    (((buildReport [c7_r_a, c7_r_b]).get_issues_grouped_by_type_for_severity
        "error".toList).1.lookup "A d".toList)
      = (((buildReport [c7_r_b, c7_r_a]).get_issues_grouped_by_type_for_severity
        "error".toList).1.lookup "A d".toList) :=
  ⟨⟨List.Perm.swap c7_r_b c7_r_a [],
    by unfold DescPrefixFree; decide, by unfold SortKeyInj; decide⟩,
   c5_grouping_order_independent [c7_r_a, c7_r_b] [c7_r_b, c7_r_a]
     (List.Perm.swap c7_r_b c7_r_a [])
     (by unfold DescPrefixFree; decide) (by unfold SortKeyInj; decide)
     "error".toList "A d".toList⟩
